import Mathlib

/-!
Verification of the OpenReq Test Flow Execution Engine.

A shallow embedding of `backend/app/services/test_flow_runner.py` and proofs
about it.  Pure Python functions become Lean functions; the effectful node
executors (HTTP, collection, script, websocket, GraphQL), Python's `eval`,
`re.search` and `json.loads` are modelled as an explicit environment (`Env`)
of oracle functions, matching the collaborator contracts the engine consumes.
Python dicts are modelled as insertion-ordered association lists with
last-write-wins update, Python sets by membership lists, and `while` loops by
fuel-indexed recursion with fuel large enough that it is never exhausted
(proved where a theorem depends on it).
-/

namespace TestFlowRunner

/-- JSON values, as produced by `json.loads`.  Python distinguishes `int` and
`float` results of parsing, which matters for `str()` rendering. -/
inductive Json where
  | null : Json
  | bool (b : Bool) : Json
  | int (i : Int) : Json
  | num (q : Rat) : Json
  | str (s : String) : Json
  | arr (xs : List Json) : Json
  | obj (fields : List (String × Json)) : Json

/-- The dynamic Python values that can appear as the `actual` operand of
`_compare`: `None`, ints, floats (modelled as rationals), booleans, strings,
and opaque container objects (parsed JSON arrays/objects). -/
inductive PyVal where
  | none : PyVal
  | int (i : Int) : PyVal
  | num (q : Rat) : PyVal
  | bool (b : Bool) : PyVal
  | str (s : String) : PyVal
  | obj (j : Json) : PyVal

def isDigitChar (c : Char) : Bool := '0' ≤ c && c ≤ '9'

def digitsToNat (ds : List Char) : Nat :=
  ds.foldl (fun a c => a * 10 + (c.toNat - '0'.toNat)) 0

/-- Parse an optional exponent suffix (after `e`/`E`): `[sign] digits`. -/
def parseExponent (mantissa : Rat) (cs : List Char) : Option Rat :=
  let (sign, cs2) : Int × List Char :=
    match cs with
    | '+' :: r => (1, r)
    | '-' :: r => (-1, r)
    | r => (1, r)
  let (ds, rest) := cs2.span isDigitChar
  if ds.isEmpty || !rest.isEmpty then none
  else
    let e : Nat := digitsToNat ds
    if sign = 1 then some (mantissa * (10 : Rat) ^ e)
    else some (mantissa / (10 : Rat) ^ e)

/-- Body of a decimal literal once the sign is stripped:
`digits [. digits]` or `. digits`, optionally followed by an exponent. -/
def parseDecimalBody (cs : List Char) : Option Rat :=
  let (ip, rest) := cs.span isDigitChar
  match rest with
  | [] => if ip.isEmpty then none else some ((digitsToNat ip : Int) : Rat)
  | '.' :: rest2 =>
    let (fp, rest3) := rest2.span isDigitChar
    if ip.isEmpty && fp.isEmpty then none
    else
      let mant : Rat := (digitsToNat ip : Rat) + (digitsToNat fp : Rat) / (10 : Rat) ^ fp.length
      match rest3 with
      | [] => some mant
      | 'e' :: rest4 => parseExponent mant rest4
      | 'E' :: rest4 => parseExponent mant rest4
      | _ => none
  | 'e' :: rest4 => if ip.isEmpty then none else parseExponent ((digitsToNat ip : Rat)) rest4
  | 'E' :: rest4 => if ip.isEmpty then none else parseExponent ((digitsToNat ip : Rat)) rest4
  | _ => none

/-- Model of Python `float(s)` on a string: strips surrounding whitespace,
optional sign, then a plain decimal literal with optional exponent.
(`inf`/`nan` and `_` digit separators are outside the model.) -/
def trimChars (cs : List Char) : List Char :=
  ((cs.dropWhile Char.isWhitespace).reverse.dropWhile Char.isWhitespace).reverse

def parseDecimal (s : String) : Option Rat :=
  match trimChars s.toList with
  | '+' :: cs => parseDecimalBody cs
  | '-' :: cs => (parseDecimalBody cs).map (fun q => -q)
  | cs => parseDecimalBody cs

/-- Model of Python `float(x)` on a dynamic value: numbers and booleans
convert, strings go through decimal parsing, everything else raises
(`none`). -/
def pyFloat (v : PyVal) : Option Rat :=
  match v with
  | PyVal.none => none
  | PyVal.int i => some (i : Rat)
  | PyVal.num q => some q
  | PyVal.bool b => some (if b then 1 else 0)
  | PyVal.str s => parseDecimal s
  | PyVal.obj _ => none

/-- Decimal rendering of a rational whose denominator divides `10^k`,
searching `k ≤ 30`; fallback is the raw `num/den` form.  This models Python
`str()` on the floats reachable in this engine (terminating decimals). -/
def ratRepr (q : Rat) : String :=
  if q.den = 1 then toString q.num ++ ".0"
  else
    match (List.range 31).find? (fun k => (q * (10 : Rat) ^ k).den = 1) with
    | some k =>
      let scaled := (q * (10 : Rat) ^ k).num
      let sign := if scaled < 0 then "-" else ""
      let digits := toString scaled.natAbs
      let padded := if digits.length ≤ k then String.mk (List.replicate (k + 1 - digits.length) '0') ++ digits else digits
      sign ++ padded.take (padded.length - k) ++ "." ++ padded.drop (padded.length - k)
    | none => toString q.num ++ "/" ++ toString q.den

mutual

/-- Approximation of Python `repr` on parsed-JSON containers (only reachable
through `str(actual)` on `json_path` lookups that return a container). -/
def jsonRepr : Json → String
  | Json.null => "None"
  | Json.bool b => if b then "True" else "False"
  | Json.int i => toString i
  | Json.num q => ratRepr q
  | Json.str s => "'" ++ s ++ "'"
  | Json.arr xs => "[" ++ String.intercalate ", " (jsonReprList xs) ++ "]"
  | Json.obj fs => "\x7b" ++ String.intercalate ", " (jsonReprFields fs) ++ "\x7d"

def jsonReprList : List Json → List String
  | [] => []
  | x :: xs => jsonRepr x :: jsonReprList xs

def jsonReprFields : List (String × Json) → List String
  | [] => []
  | (k, v) :: fs => ("'" ++ k ++ "': " ++ jsonRepr v) :: jsonReprFields fs

end

/-- Model of Python `str(x)`. -/
def pyStr (v : PyVal) : String :=
  match v with
  | PyVal.none => "None"
  | PyVal.int i => toString i
  | PyVal.num q => ratRepr q
  | PyVal.bool b => if b then "True" else "False"
  | PyVal.str s => s
  | PyVal.obj j => jsonRepr j

/-- `_compare`'s string-semantics tail (reached when numeric comparison does
not apply): `eq | neq | contains | not_contains | regex`, else `False`.
`research` is the `re.search` oracle (pattern, string). -/
def stringCompare (research : String → String → Bool)
    (a_str expected operator : String) : Bool :=
  if operator == "eq" then a_str == expected
  else if operator == "neq" then a_str != expected
  else if operator == "contains" then decide (List.IsInfix expected.toList a_str.toList)
  else if operator == "not_contains" then !(decide (List.IsInfix expected.toList a_str.toList))
  else if operator == "regex" then research expected a_str
  else false

/-- Embedding of `_compare(actual, expected, operator)`.  A `None` actual
only passes `eq` against the empty expected string; otherwise numeric
comparison is attempted for the six relational operators when both operands
parse as numbers, and string semantics apply in every other case. -/
def pycompare (research : String → String → Bool)
    (actual : PyVal) (expected : String) (operator : String) : Bool :=
  match actual with
  | PyVal.none => operator == "eq" && expected == ""
  | a =>
    match pyFloat a, parseDecimal expected with
    | some an, some en =>
      if operator == "eq" then an == en
      else if operator == "neq" then an != en
      else if operator == "gt" then decide (en < an)
      else if operator == "lt" then decide (an < en)
      else if operator == "gte" then decide (en ≤ an)
      else if operator == "lte" then decide (an ≤ en)
      else stringCompare research (pyStr a) expected operator
    | _, _ => stringCompare research (pyStr a) expected operator

theorem dropWhile_length_le (p : α → Bool) (l : List α) :
    (l.dropWhile p).length ≤ l.length := by
  induction l with
  | nil => simp [List.dropWhile]
  | cons a l ih =>
    rw [List.dropWhile_cons]
    split
    · exact Nat.le_succ_of_le ih
    · simp

/-- Split a JSON path on `.` separators and `[digits]` index groups, the
captured digits becoming their own part — the behavior of
`re.split(r'\.|\[(\d+)\]', path)` with `None` groups dropped. -/
def jsonPathSplit (cs : List Char) (acc : List Char) : List String :=
  match cs with
  | [] => [String.mk acc.reverse]
  | '.' :: rest => String.mk acc.reverse :: jsonPathSplit rest []
  | '[' :: rest =>
    match rest.takeWhile isDigitChar, h : rest.dropWhile isDigitChar with
    | d :: ds2, ']' :: rest3 =>
      String.mk acc.reverse :: String.mk (d :: ds2) :: jsonPathSplit rest3 []
    | _, _ => jsonPathSplit rest ('[' :: acc)
  | c :: rest => jsonPathSplit rest (c :: acc)
termination_by cs.length
decreasing_by
  · simp
  · have h3 : (']' :: rest3).length ≤ rest.length := by
      rw [← h]
      exact dropWhile_length_le isDigitChar rest
    simp only [List.length_cons] at h3 ⊢
    omega
  · simp
  · simp

/-- Convert a terminal JSON value to the dynamic value `_compare` receives. -/
def jsonToPyVal : Json → PyVal
  | Json.null => PyVal.none
  | Json.bool b => PyVal.bool b
  | Json.int i => PyVal.int i
  | Json.num q => PyVal.num q
  | Json.str s => PyVal.str s
  | j => PyVal.obj j

/-- Walk the split path parts: an all-digit part indexes lists and strings
(anything else raises → `none`), any other part is a dict key lookup. -/
def resolveParts : Json → List String → Option Json
  | cur, [] => some cur
  | cur, part :: rest =>
    if part.isEmpty then resolveParts cur rest
    else if part.toList.all isDigitChar then
      match cur with
      | Json.arr xs =>
        match xs.get? (digitsToNat part.toList) with
        | some v => resolveParts v rest
        | none => none
      | Json.str s =>
        match s.toList.get? (digitsToNat part.toList) with
        | some c => resolveParts (Json.str (String.mk [c])) rest
        | none => none
      | _ => none
    else
      match cur with
      | Json.obj fs =>
        match fs.find? (fun p => p.1 == part) with
        | some p => resolveParts p.2 rest
        | none => none
      | _ => none

/-- Embedding of `_resolve_json_path(data, path)`; lookup failures (Python
exceptions, caught by the caller) become `none`. -/
def resolve_json_path (data : Json) (path : String) : Option Json :=
  let p := path.trim
  let p1 := if p.startsWith "$." then p.drop 2 else if p.startsWith "$" then p.drop 1 else p
  resolveParts data (jsonPathSplit p1.toList [])

/-! ## The flow data model (`app.models.test_flow`) -/

/-- `TestFlowEdge`: directed control-flow edge; `source_handle` discriminates
multiple outgoing paths (`source-true`/`source-false`, `source-loop`). -/
structure TestFlowEdge where
  id : String
  source_node_id : String
  target_node_id : String
  source_handle : Option String := none
deriving DecidableEq

/-- One configured assertion `{type, operator, expected, field}` of an
assertion node (`atype` models the Python key `"type"`); the defaults are
the `.get` defaults used in `_exec_assertion`. -/
structure Assertion where
  atype : String := "status_code"
  operator : String := "eq"
  expected : String := ""
  field : String := ""
deriving DecidableEq

/-- Typed view of `TestFlowNode.config`, with the `.get` defaults of each
executor.  Fields consumed only by the effectful executors (request ids,
URLs, scripts, ...) are bundled as opaque `extra` data for the oracle. -/
structure NodeConfig where
  assertions : List Assertion := []
  expression : String := "false"
  assignments : List (String × String) := []
  mode : String := "count"
  count : Int := 1
  max_iterations : Int := 100
  condition : String := "false"
  delay_ms : Int := 1000
  extra : List (String × String) := []
deriving DecidableEq

structure TestFlowNode where
  id : String
  node_type : String
  label : String := ""
  config : NodeConfig := {}
deriving DecidableEq

/-- A `TestFlow` as consumed by `run_test_flow_stream`: name, initial
variables, nodes and edges. -/
structure TestFlow where
  name : String := ""
  variables_ : List (String × String) := []   -- models the `variables` column
  nodes : List TestFlowNode := []
  edges : List TestFlowEdge := []
deriving DecidableEq

/-- One entry of a `NodeResult.assertion_results` list. -/
structure AssertionResult where
  name : String
  passed : Bool
  actual : Option String := none
  expected : Option String := none
  error : Option String := none
deriving DecidableEq

/-- The result dict produced for one executed node.  Optional fields model
dict keys that may be absent.  (`variables` and `assertion_results` conflate
an absent key with an empty value, which the engine never distinguishes.) -/
structure NodeResult where
  status : String := "success"
  error : Option String := none
  node_type : Option String := none
  status_code : Option Int := none
  response_body : Option String := none
  response_headers : Option (List (String × String)) := none
  size_bytes : Option Int := none
  variables_ : List (String × String) := []   -- models the `variables` key
  assertion_results : List AssertionResult := []
  branch_taken : Option String := none
  elapsed_ms : Option Rat := none
  execution_order : Option Nat := none
  node_label : Option String := none
  iteration : Option Int := none
  iterations_completed : Option Int := none
deriving DecidableEq

/-- The `_build_summary` output. -/
structure Summary where
  total_nodes : Nat := 0
  passed_count : Nat := 0
  failed_count : Nat := 0
  skipped_count : Nat := 0
  total_assertions : Nat := 0
  passed_assertions : Nat := 0
  failed_assertions : Nat := 0
  total_time_ms : Rat := 0
deriving DecidableEq

/-- The streaming protocol events (§6 of the spec), one constructor per
emitted dict shape.  `node_skipped_iter`/`node_result_iter` are the loop-body
variants that carry an `iteration` field. -/
inductive Event where
  | start (total_nodes : Nat) (flow_name : String)
  | error (msg : String)
  | done (summary : Summary) (final_variables : List (String × String))
  | node_start (node_id : String) (node_type : String) (label : String)
  | edge_active (edge_id : String)
  | node_skipped (node_id : String) (node_type : String) (node_label : String) (reason : String)
  | node_result (node_id : String) (result : NodeResult)
  | loop_iteration (node_id : String) (iteration : Int) (total : Int)
  | node_skipped_iter (node_id : String) (iteration : Int) (reason : String)
  | node_result_iter (node_id : String) (iteration : Int) (result : NodeResult)
deriving DecidableEq

/-- The context dict a `condition`/loop-condition expression is evaluated
against.  `http_keys` records whether the four HTTP-derived keys are present
at all (in `_exec_loop`'s condition mode they are absent when no HTTP-like
node ran in the body). -/
structure EvalCtx where
  vars : List (String × String) := []
  status_code : Option Int := none
  response_body : String := ""
  response_headers : List (String × String) := []
  elapsed_ms : Option Rat := none
  iteration : Int := 0
  http_keys : Bool := true
deriving DecidableEq

/-- The engine's effectful collaborators (spec §6), modelled as oracles:
`exec idx node_type config vars` is the I/O-performing node executor for
`http_request`/`collection`/`script`/`websocket`/`graphql` (the `idx` call
counter lets successive calls differ, as the real world does); `evalExpr` is
Python `eval` on an expression and context; `research` is `re.search`;
`jsonParse` is `json.loads`; `clock idx` is the wall-clock elapsed-ms
measurement of the `idx`-th dispatched node.  `Except.error` models a raised
exception, `Except.ok` a returned result dict. -/
structure Env where
  exec : Nat → String → NodeConfig → List (String × String) → Except String NodeResult
  evalExpr : String → EvalCtx → Except String Bool
  research : String → String → Bool
  jsonParse : String → Except String Json
  clock : Nat → Rat

/-! ## Ordered-dict and adjacency helpers -/

/-- Python-dict update: overwrite in place if the key exists, else append. -/
def amUpdate {α : Type} (m : List (String × α)) (k : String) (v : α) : List (String × α) :=
  if m.any (fun p => p.1 == k) then m.map (fun p => if p.1 == k then (k, v) else p)
  else m ++ [(k, v)]

def amLookup {α : Type} (m : List (String × α)) (k : String) : Option α :=
  (m.find? (fun p => p.1 == k)).map (·.2)

def amUpdateAll {α : Type} (m : List (String × α)) (kvs : List (String × α)) :
    List (String × α) :=
  kvs.foldl (fun acc p => amUpdate acc p.1 p.2) m

/-- `outgoing[nid]` as built in `run_test_flow_stream` (edge order kept). -/
def buildOutgoing (edges : List TestFlowEdge) (nid : String) : List TestFlowEdge :=
  edges.filter (fun e => e.source_node_id == nid)

/-- `incoming[nid]` as built in `run_test_flow_stream` (edge order kept). -/
def buildIncoming (edges : List TestFlowEdge) (nid : String) : List TestFlowEdge :=
  edges.filter (fun e => e.target_node_id == nid)

/-- Python `round(x, 2)` (round half to even at two decimals). -/
def pyRound2 (q : Rat) : Rat :=
  let x := q * 100
  let f : Int := x.floor
  let r := x - (f : Rat)
  let n : Int :=
    if r < 1/2 then f
    else if (1:Rat)/2 < r then f + 1
    else if f % 2 = 0 then f else f + 1
  (n : Rat) / 100

/-! ## Topological sort (`_topological_sort`, Kahn's algorithm) -/

/-- Processing the out-edges of a freshly dequeued node: for each edge whose
target is a key of `in_degree` (`isNode`), decrement it and enqueue the
target if the decremented value is zero. -/
def relaxEdges (isNode : String → Bool) (es : List TestFlowEdge)
    (inDeg : String → Int) (queue : List String) : (String → Int) × List String :=
  match es with
  | [] => (inDeg, queue)
  | e :: rest =>
    let t := e.target_node_id
    if isNode t then
      let d2 : String → Int := fun x => if x == t then inDeg x - 1 else inDeg x
      let q2 := if d2 t == 0 then queue ++ [t] else queue
      relaxEdges isNode rest d2 q2
    else relaxEdges isNode rest inDeg queue

/-- The `while queue:` loop of Kahn's algorithm, fuel-indexed.  A fuel of
`nodes.length` is enough: each node is enqueued at most once (proved below),
so fuel exhaustion coincides with queue exhaustion. -/
def kahnLoop (out : String → List TestFlowEdge) (isNode : String → Bool) :
    Nat → List String → (String → Int) → List String → List String × (String → Int)
  | 0, _, d, order => (order, d)
  | _ + 1, [], d, order => (order, d)
  | fuel + 1, nid :: queue, d, order =>
    let p := relaxEdges isNode (out nid) d queue
    kahnLoop out isNode fuel p.2 p.1 (order ++ [nid])

def labelOrId (nodes : List TestFlowNode) (nid : String) : String :=
  match nodes.find? (fun n => n.id == nid) with
  | some n => if n.label == "" then nid else n.label
  | none => nid

/-- Embedding of `_topological_sort` (taking the node/edge lists; the
adjacency maps it receives in Python are `buildOutgoing`/`buildIncoming` of
the edge list).  `Except.error` models the raised `ValueError`; the set of
unvisited labels in the message is enumerated in node order (Python set
iteration order is unspecified). -/
def topological_sort (nodes : List TestFlowNode) (edges : List TestFlowEdge) :
    Except String (List String) :=
  let isNode : String → Bool := fun s => nodes.any (fun n => n.id == s)
  let inDeg : String → Int := fun nid => ((buildIncoming edges nid).length : Int)
  let seeds := (nodes.filter (fun n => inDeg n.id == 0 && n.node_type != "group")).map (·.id)
  let order := (kahnLoop (buildOutgoing edges) isNode nodes.length seeds inDeg []).1
  let unvisited := (nodes.filter (fun n => n.node_type != "group" && !(order.contains n.id))).map (·.id)
  if unvisited.isEmpty then Except.ok order
  else Except.error ("Cycle detected in test flow involving nodes: " ++
    String.intercalate ", " (unvisited.map (labelOrId nodes)))

/-! ## Upstream HTTP-result lookup (`_find_upstream_http_result`) -/

/-- The backward BFS loop: pop a source id; skip if visited; return its
result if it is a recorded `http_request`/`collection` node; otherwise keep
walking its own incoming edges. -/
def findUpstreamLoop (incoming : String → List TestFlowEdge) (nodes : List TestFlowNode)
    (node_results : List (String × NodeResult)) :
    Nat → List String → List String → Option NodeResult
  | 0, _, _ => none
  | _ + 1, [], _ => none
  | fuel + 1, src :: queue, visited =>
    if visited.contains src then
      findUpstreamLoop incoming nodes node_results fuel queue visited
    else
      let recurse := fun () => findUpstreamLoop incoming nodes node_results fuel
        (queue ++ (incoming src).map (·.source_node_id)) (src :: visited)
      match amLookup node_results src, nodes.find? (fun n => n.id == src) with
      | some r, some n =>
        if n.node_type == "http_request" || n.node_type == "collection" then some r
        else recurse ()
      | _, _ => recurse ()

/-- Embedding of `_find_upstream_http_result`.  The fuel `2|edges| + 1`
dominates the number of queue insertions (initial sources plus one push per
edge of a newly visited node), so it is never exhausted. -/
def find_upstream_http_result (node_id : String) (edges : List TestFlowEdge)
    (nodes : List TestFlowNode) (node_results : List (String × NodeResult)) :
    Option NodeResult :=
  findUpstreamLoop (buildIncoming edges) nodes node_results (2 * edges.length + 1)
    ((buildIncoming edges node_id).map (·.source_node_id)) []

/-! ## Branch skipping (`_mark_inactive_branch`) -/

/-- Generic forward BFS over `out`-edges with a `blocked` filter, returning
the visited ids in visit order.  Fuel `|starts| + |edges|` dominates the
number of queue insertions. -/
def bfsLoop (out : String → List TestFlowEdge) (blocked : String → Bool) :
    Nat → List String → List String → List String
  | 0, _, visited => visited
  | _ + 1, [], visited => visited
  | fuel + 1, nid :: queue, visited =>
    if visited.contains nid || blocked nid then bfsLoop out blocked fuel queue visited
    else bfsLoop out blocked fuel (queue ++ (out nid).map (·.target_node_id)) (visited ++ [nid])

def bfsReach (edges : List TestFlowEdge) (starts : List String) : List String :=
  bfsLoop (buildOutgoing edges) (fun _ => false) (starts.length + edges.length) starts []

/-- Embedding of `_mark_inactive_branch`: nodes reachable from the not-taken
handle's targets but not from the other outgoing targets join `skipped`.
(The `nodes` parameter of the Python function is unused and dropped; the set
insertion order is normalized to BFS order — only membership is ever read.) -/
def mark_inactive_branch (condition_node_id : String) (branch_taken : String)
    (edges : List TestFlowEdge) (skipped : List String) : List String :=
  let inactive_handle := if branch_taken == "true" then "source-false" else "source-true"
  let outEdges := buildOutgoing edges condition_node_id
  let inactive_starts := (outEdges.filter (fun e => e.source_handle == some inactive_handle)).map (·.target_node_id)
  let active_starts := (outEdges.filter (fun e => !(e.source_handle == some inactive_handle))).map (·.target_node_id)
  let inactive_reachable := bfsReach edges inactive_starts
  let active_reachable := bfsReach edges active_starts
  inactive_reachable.foldl (fun acc nid =>
    if active_reachable.contains nid || acc.contains nid then acc else acc ++ [nid]) skipped

/-! ## Pure node executors -/

def isWordChar (c : Char) : Bool := c.isAlphanum || c == '_'

/-- `re.sub(r"\{\{(\w+)\}\}", lookup-or-keep, value)`: replace `\x7b\x7bname\x7d\x7d`
by its variable value, leaving unknown names as the literal placeholder. -/
def substVars (lookup : String → Option String) (cs : List Char) : List Char :=
  match cs with
  | [] => []
  | '\x7b' :: '\x7b' :: rest =>
    match rest.takeWhile isWordChar, h : rest.dropWhile isWordChar with
    | w1 :: ws, '\x7d' :: '\x7d' :: rest2 =>
      (match lookup (String.mk (w1 :: ws)) with
       | some v => v.toList
       | none => '\x7b' :: '\x7b' :: ((w1 :: ws) ++ ['\x7d', '\x7d'])) ++ substVars lookup rest2
    | _, _ => '\x7b' :: substVars lookup ('\x7b' :: rest)
  | c :: rest => c :: substVars lookup rest
termination_by cs.length
decreasing_by
  · have h3 : ('\x7d' :: '\x7d' :: rest2).length ≤ rest.length := by
      rw [← h]
      exact dropWhile_length_le isWordChar rest
    simp only [List.length_cons] at h3 ⊢
    omega
  · simp
  · simp

/-- Embedding of `_exec_set_variable`. -/
def exec_set_variable (config : NodeConfig) (flow_vars : List (String × String)) : NodeResult :=
  let new_vars := config.assignments.foldl (fun acc kv =>
    if kv.1 == "" then acc
    else amUpdate acc kv.1 (String.mk (substVars (fun w => amLookup flow_vars w) kv.2.toList))) []
  { status := "success", node_type := some "set_variable", variables_ := new_vars }

/-- Embedding of `_exec_delay` (the suspension itself has no observable
data effect; the result dict is fixed). -/
def exec_delay : NodeResult :=
  { status := "success", node_type := some "delay" }

/-- `f"{a_type}: {field or expected}"`, shared by both the upstream-failed
entries and the evaluated entries of `_exec_assertion`. -/
def assertionDisplayName (a : Assertion) : String :=
  a.atype ++ ": " ++ (if a.field == "" then a.expected else a.field)

/-- Evaluate one configured assertion against a non-failed upstream result:
resolve `actual` by assertion type, compare, and build the result entry. -/
def evalAssertion (env : Env) (upstream : NodeResult) (a : Assertion) : AssertionResult :=
  let pa : Bool × PyVal :=
    if a.atype == "status_code" then
      let actual := match upstream.status_code with | some c => PyVal.int c | none => PyVal.none
      (pycompare env.research actual a.expected a.operator, actual)
    else if a.atype == "body_contains" then
      let body := upstream.response_body.getD ""
      if a.operator == "contains" then
        (decide (List.IsInfix a.expected.toList body.toList), PyVal.str body)
      else if a.operator == "not_contains" then
        (!(decide (List.IsInfix a.expected.toList body.toList)), PyVal.str body)
      else if a.operator == "regex" then (env.research a.expected body, PyVal.str body)
      else (pycompare env.research (PyVal.str body) a.expected a.operator, PyVal.str body)
    else if a.atype == "json_path" then
      let body := upstream.response_body.getD ""
      let actual := match env.jsonParse body with
        | Except.ok data =>
          match resolve_json_path data a.field with
          | some j => jsonToPyVal j
          | none => PyVal.none
        | Except.error _ => PyVal.none
      (pycompare env.research actual a.expected a.operator, actual)
    else if a.atype == "header_check" then
      let headers := upstream.response_headers.getD []
      let actual := match amLookup headers a.field with
        | some v => PyVal.str v
        | none =>
          match amLookup headers a.field.toLower with
          | some v => PyVal.str v
          | none => PyVal.none
      (pycompare env.research actual a.expected a.operator, actual)
    else if a.atype == "response_time" then
      let actual := match upstream.elapsed_ms with | some t => PyVal.num t | none => PyVal.none
      (pycompare env.research actual a.expected a.operator, actual)
    else (false, PyVal.none)
  { name := assertionDisplayName a
    passed := pa.1
    actual := match pa.2 with | PyVal.none => none | v => some (pyStr v)
    expected := some a.expected
    error := if pa.1 then none
      else some ("Expected " ++ a.operator ++ " " ++ a.expected ++ ", got " ++ pyStr pa.2) }

/-- Embedding of `_exec_assertion`. -/
def exec_assertion (env : Env) (config : NodeConfig) (node_results : List (String × NodeResult))
    (edges : List TestFlowEdge) (node_id : String) (nodes : List TestFlowNode) : NodeResult :=
  let assertions := config.assertions
  if assertions.isEmpty then
    { status := "success", node_type := some "assertion", assertion_results := [] }
  else
    match find_upstream_http_result node_id edges nodes node_results with
    | none =>
      { status := "error", error := some "No upstream HTTP request found for assertion",
        assertion_results := [], branch_taken := some "false" }
    | some upstream =>
      if upstream.status == "error" then
        let error_msg := upstream.error.getD "Upstream request failed"
        let results := assertions.map (fun a =>
          ({ name := assertionDisplayName a, passed := false,
             error := some ("Upstream request failed: " ++ error_msg) } : AssertionResult))
        { status := "error", node_type := some "assertion",
          assertion_results := results, branch_taken := some "false" }
      else
        let results := assertions.map (evalAssertion env upstream)
        let all_passed := results.all (·.passed)
        { status := if all_passed then "success" else "error"
          node_type := some "assertion"
          assertion_results := results
          branch_taken := some (if all_passed then "true" else "false") }

/-- Embedding of `_exec_condition`: build the restricted context from the
nearest upstream HTTP-like result and hand the expression to the evaluation
oracle; an evaluation exception yields `status="error"`,
`branch_taken="false"`. -/
def exec_condition (env : Env) (config : NodeConfig) (flow_vars : List (String × String))
    (node_results : List (String × NodeResult)) (edges : List TestFlowEdge)
    (node_id : String) (nodes : List TestFlowNode) (iteration : Int := 0) : NodeResult :=
  let expression := config.expression.trim
  let upstream := find_upstream_http_result node_id edges nodes node_results
  let ctx : EvalCtx := {
    vars := flow_vars
    status_code := upstream.bind (·.status_code)
    response_body := match upstream with | some u => u.response_body.getD "" | none => ""
    response_headers := match upstream with | some u => u.response_headers.getD [] | none => []
    elapsed_ms := upstream.bind (·.elapsed_ms)
    iteration := iteration
    http_keys := true }
  match env.evalExpr expression ctx with
  | Except.ok b =>
    { status := "success", node_type := some "condition",
      branch_taken := some (if b then "true" else "false") }
  | Except.error e =>
    { status := "error", error := some ("Condition evaluation failed: " ++ e),
      branch_taken := some "false" }

/-! ## Loop executor (`_exec_loop`) -/

/-- State threaded through one pass over the loop body order. -/
structure BodySt where
  vars : List (String × String)
  results : List (String × NodeResult)
  calls : Nat
  sub_events : List Event
  last_http : Option NodeResult
  body_skipped : List String

/-- The inner dispatch switch of `_exec_loop` (unknown body types fall
through to a success no-op, unlike the main dispatch). -/
def dispatchBody (env : Env) (edges : List TestFlowEdge) (nodes : List TestFlowNode)
    (body_node : TestFlowNode) (body_nid : String) (i : Int)
    (vars : List (String × String)) (results : List (String × NodeResult)) (calls : Nat) :
    NodeResult × Nat :=
  let t := body_node.node_type
  if t == "http_request" || t == "collection" || t == "script" || t == "websocket"
      || t == "graphql" then
    match env.exec calls t body_node.config vars with
    | Except.ok r => (r, calls + 1)
    | Except.error e => ({ status := "error", error := some e }, calls + 1)
  else if t == "delay" then (exec_delay, calls)
  else if t == "set_variable" then (exec_set_variable body_node.config vars, calls)
  else if t == "assertion" then
    (exec_assertion env body_node.config results edges body_nid nodes, calls)
  else if t == "condition" then
    (exec_condition env body_node.config vars results edges body_nid nodes i, calls)
  else ({ status := "success", node_type := some t }, calls)

/-- The in-body branch-skip of `_exec_loop`: like `_mark_inactive_branch`
but with edge partition and both BFS walks confined to the body node set. -/
def bodyMarkInactive (edges : List TestFlowEdge) (body_set : List String)
    (body_nid : String) (branch : String) (body_skipped : List String) : List String :=
  let inactive_handle := if branch == "true" then "source-false" else "source-true"
  let relevant := (buildOutgoing edges body_nid).filter
    (fun e => body_set.contains e.target_node_id)
  let inactive_starts := (relevant.filter
    (fun e => e.source_handle == some inactive_handle)).map (·.target_node_id)
  let active_starts := (relevant.filter
    (fun e => !(e.source_handle == some inactive_handle))).map (·.target_node_id)
  let blocked : String → Bool := fun sid => !body_set.contains sid
  let inactive_reach := bfsLoop (buildOutgoing edges) blocked
    (inactive_starts.length + edges.length) inactive_starts []
  let active_reach := bfsLoop (buildOutgoing edges) blocked
    (active_starts.length + edges.length) active_starts []
  inactive_reach.foldl (fun acc sid =>
    if active_reach.contains sid || acc.contains sid then acc else acc ++ [sid]) body_skipped

/-- One full execution of the body order (the `for body_nid in body_order:`
loop of one iteration `i`). -/
def loopBodyPass (env : Env) (edges : List TestFlowEdge) (nodes : List TestFlowNode)
    (body_set : List String) (i : Int) : List String → BodySt → BodySt
  | [], st => st
  | body_nid :: rest, st =>
    if st.body_skipped.contains body_nid then
      loopBodyPass env edges nodes body_set i rest
        { st with sub_events := st.sub_events ++ [Event.node_skipped_iter body_nid i "branch_not_taken"] }
    else
      match nodes.find? (fun n => n.id == body_nid) with
      | none => loopBodyPass env edges nodes body_set i rest st
      | some body_node =>
        let pr := dispatchBody env edges nodes body_node body_nid i st.vars st.results st.calls
        let r := { pr.1 with iteration := some i }
        let vars2 := if r.variables_.isEmpty then st.vars else amUpdateAll st.vars r.variables_
        let results2 := amUpdate st.results body_nid r
        let last2 :=
          if body_node.node_type == "http_request" || body_node.node_type == "collection"
          then some r else st.last_http
        let evs2 := st.sub_events ++ [Event.node_result_iter body_nid i r]
        let bskip2 :=
          if (body_node.node_type == "condition" || body_node.node_type == "assertion")
              && (r.branch_taken.getD "") != "" then
            bodyMarkInactive edges body_set body_nid (r.branch_taken.getD "") st.body_skipped
          else st.body_skipped
        loopBodyPass env edges nodes body_set i rest
          { vars := vars2, results := results2, calls := pr.2, sub_events := evs2,
            last_http := last2, body_skipped := bskip2 }

/-- State threaded through the iteration loop of `_exec_loop`. -/
structure IterSt where
  completed : Int
  vars : List (String × String)
  results : List (String × NodeResult)
  skipped : List String
  calls : Nat
  sub_events : List Event

/-- The `for i in range(1, iterations + 1):` loop: emit `loop_iteration`,
run a body pass, add the body nodes to the outer skip set, and in
`condition` mode stop early when the loop condition is false or raises. -/
def loopIterate (env : Env) (edges : List TestFlowEdge) (nodes : List TestFlowNode)
    (node_id : String) (body_set body_order loop_body_nodes : List String)
    (mode : String) (cond : String) (iterations : Int) :
    List Int → IterSt → IterSt
  | [], st => st
  | i :: rest, st =>
    let st1 := { st with
      completed := i,
      sub_events := st.sub_events ++ [Event.loop_iteration node_id i iterations] }
    let bp := loopBodyPass env edges nodes body_set i body_order
      { vars := st1.vars, results := st1.results, calls := st1.calls
        sub_events := [], last_http := none, body_skipped := [] }
    let st2 : IterSt := {
      completed := i, vars := bp.vars, results := bp.results,
      skipped := loop_body_nodes.foldl
        (fun acc nid => if acc.contains nid then acc else acc ++ [nid]) st1.skipped,
      calls := bp.calls,
      sub_events := st1.sub_events ++ bp.sub_events }
    if mode == "condition" then
      let ctx : EvalCtx := {
        vars := st2.vars, iteration := i,
        status_code := bp.last_http.bind (·.status_code),
        response_body := match bp.last_http with | some u => u.response_body.getD "" | none => "",
        response_headers := match bp.last_http with | some u => u.response_headers.getD [] | none => [],
        elapsed_ms := bp.last_http.bind (·.elapsed_ms),
        http_keys := bp.last_http.isSome }
      match env.evalExpr cond ctx with
      | Except.ok true =>
        loopIterate env edges nodes node_id body_set body_order loop_body_nodes mode cond iterations rest st2
      | _ => st2
    else
      loopIterate env edges nodes node_id body_set body_order loop_body_nodes mode cond iterations rest st2

/-- What `_exec_loop` returns to the main runner: its own result dict, the
accumulated `_sub_events`, and the in-place mutations of the shared run
state (`flow_vars`, `node_results`, `skipped_nodes`, call counter). -/
structure LoopOut where
  result : NodeResult
  sub_events : List Event
  vars : List (String × String)
  results : List (String × NodeResult)
  skipped : List String
  calls : Nat

/-- The loop body node set of a loop node: forward BFS from the
`source-loop` edge targets, stopping at `source-done` targets, the loop node
itself, and ids that are not nodes. -/
def loopBodyNodes (edges : List TestFlowEdge) (nodes : List TestFlowNode)
    (node : TestFlowNode) : List String :=
  let outN := buildOutgoing edges node.id
  let loop_body_starts := (outN.filter (fun e => e.source_handle == some "source-loop")).map (·.target_node_id)
  let done_targets := (outN.filter (fun e => !(e.source_handle == some "source-loop"))).map (·.target_node_id)
  let isNodeId : String → Bool := fun s => nodes.any (fun n => n.id == s)
  let blocked : String → Bool := fun nid =>
    done_targets.contains nid || nid == node.id || !isNodeId nid
  bfsLoop (buildOutgoing edges) blocked (loop_body_starts.length + edges.length)
    loop_body_starts []

/-- The local topological order of the loop body (in-degree counted only
over edges whose source is inside the body set). -/
def loopBodyOrder (edges : List TestFlowEdge) (loop_body_nodes : List String) : List String :=
  let body_in_degree : String → Int := fun nid =>
    (((buildIncoming edges nid).filter (fun e => loop_body_nodes.contains e.source_node_id)).length : Int)
  let topo_seeds := loop_body_nodes.filter (fun n => body_in_degree n == 0)
  (kahnLoop (buildOutgoing edges) (fun s => loop_body_nodes.contains s)
    loop_body_nodes.length topo_seeds body_in_degree []).1

/-- Embedding of `_exec_loop`. -/
def exec_loop (env : Env) (node : TestFlowNode) (config : NodeConfig)
    (vars : List (String × String)) (results : List (String × NodeResult))
    (edges : List TestFlowEdge) (nodes : List TestFlowNode)
    (skipped : List String) (calls : Nat) : LoopOut :=
  let body_nodes := loopBodyNodes edges nodes node
  let body_order := loopBodyOrder edges body_nodes
  let iterations : Int :=
    if config.mode == "count" then min config.count config.max_iterations
    else config.max_iterations
  let iterList := (List.range iterations.toNat).map (fun k : Nat => ((k : Int) + 1))
  let final := loopIterate env edges nodes node.id body_nodes body_order body_nodes
    config.mode config.condition iterations iterList
    { completed := 0, vars := vars, results := results, skipped := skipped
      calls := calls, sub_events := [] }
  { result := {
        status := "success", node_type := some "loop",
        iterations_completed := some (if body_nodes.isEmpty then 0 else final.completed) : NodeResult }
    sub_events := final.sub_events
    vars := final.vars
    results := final.results
    skipped := final.skipped
    calls := final.calls }

/-! ## Main streaming runner (`run_test_flow_stream`) -/

/-- State of the main `for node_id in execution_order:` loop. -/
structure RunState where
  vars : List (String × String)
  results : List (String × NodeResult)
  skipped : List String
  exec_index : Nat
  calls : Nat
  events : List Event

/-- What one main-loop dispatch returns: the node's result plus the run
state it may have mutated (only `loop` touches anything beyond the oracle
call counter) and any `_sub_events` to flush before the `node_result`. -/
structure MainOut where
  result : NodeResult
  sub_events : List Event
  vars : List (String × String)
  results : List (String × NodeResult)
  skipped : List String
  calls : Nat

/-- The main dispatch switch of `run_test_flow_stream`; an unknown
`node_type` yields an error result (a per-node error, not a build error). -/
def dispatchMain (env : Env) (nodes : List TestFlowNode) (edges : List TestFlowEdge)
    (node : TestFlowNode) (vars : List (String × String))
    (results : List (String × NodeResult)) (skipped : List String) (calls : Nat) : MainOut :=
  let keep : NodeResult → MainOut := fun r =>
    { result := r, sub_events := [], vars := vars, results := results,
      skipped := skipped, calls := calls }
  let t := node.node_type
  if t == "http_request" || t == "collection" || t == "script" || t == "websocket"
      || t == "graphql" then
    match env.exec calls t node.config vars with
    | Except.ok r => { keep r with calls := calls + 1 }
    | Except.error e => { keep { status := "error", error := some e } with calls := calls + 1 }
  else if t == "assertion" then keep (exec_assertion env node.config results edges node.id nodes)
  else if t == "delay" then keep exec_delay
  else if t == "condition" then keep (exec_condition env node.config vars results edges node.id nodes 0)
  else if t == "set_variable" then keep (exec_set_variable node.config vars)
  else if t == "loop" then
    let lo := exec_loop env node node.config vars results edges nodes skipped calls
    { result := lo.result, sub_events := lo.sub_events, vars := lo.vars,
      results := lo.results, skipped := lo.skipped, calls := lo.calls }
  else keep { status := "error", error := some ("Unknown node type: " ++ t) }

/-- One step of the main loop: skip `group` nodes, emit `node_skipped` and
record a skipped result for marked nodes, otherwise emit `node_start` and
active-edge events, dispatch, stamp the result, merge variables, and apply
branch skipping. -/
def runNode (env : Env) (nodes : List TestFlowNode) (edges : List TestFlowEdge)
    (st : RunState) (node_id : String) : RunState :=
  match nodes.find? (fun n => n.id == node_id) with
  | none => st
  | some node =>
    if node.node_type == "group" then st
    else if st.skipped.contains node_id then
      { st with
        events := st.events ++ [Event.node_skipped node_id node.node_type node.label "branch_not_taken"],
        results := amUpdate st.results node_id { status := "skipped" },
        exec_index := st.exec_index + 1 }
    else
      let startEvs := [Event.node_start node_id node.node_type node.label]
      let edgeEvs := ((buildIncoming edges node_id).filter
        (fun e => !st.skipped.contains e.source_node_id)).map (fun e => Event.edge_active e.id)
      let mo := dispatchMain env nodes edges node st.vars st.results st.skipped st.calls
      let r := { mo.result with
        elapsed_ms := some (pyRound2 (env.clock st.exec_index)),
        execution_order := some st.exec_index,
        node_label := some node.label,
        node_type := some node.node_type }
      let results2 := amUpdate mo.results node_id r
      let vars2 := if r.variables_.isEmpty then mo.vars else amUpdateAll mo.vars r.variables_
      let skipped2 :=
        if (node.node_type == "condition" || node.node_type == "assertion")
            && (r.branch_taken.getD "") != "" then
          mark_inactive_branch node_id (r.branch_taken.getD "") edges mo.skipped
        else mo.skipped
      { vars := vars2, results := results2, skipped := skipped2,
        exec_index := st.exec_index + 1, calls := mo.calls,
        events := st.events ++ startEvs ++ edgeEvs ++ mo.sub_events ++ [Event.node_result node_id r] }

/-- One accumulation step of `_build_summary` over a node result. -/
def summaryStep (acc : Summary) (r : NodeResult) : Summary :=
  if r.status == "skipped" then
    { acc with skipped_count := acc.skipped_count + 1, total_nodes := acc.total_nodes + 1 }
  else
    let acc1 := { acc with total_nodes := acc.total_nodes + 1 }
    let acc2 :=
      if r.status == "success" then { acc1 with passed_count := acc1.passed_count + 1 }
      else if r.status == "error" then { acc1 with failed_count := acc1.failed_count + 1 }
      else acc1
    let acc3 := { acc2 with total_time_ms := acc2.total_time_ms + r.elapsed_ms.getD 0 }
    r.assertion_results.foldl (fun a ar =>
      if ar.passed then
        { a with total_assertions := a.total_assertions + 1,
                 passed_assertions := a.passed_assertions + 1 }
      else
        { a with total_assertions := a.total_assertions + 1,
                 failed_assertions := a.failed_assertions + 1 }) acc3

/-- Embedding of `_build_summary`. -/
def build_summary (node_results : List (String × NodeResult)) : Summary :=
  let s := node_results.foldl (fun acc p => summaryStep acc p.2) {}
  { s with total_time_ms := pyRound2 s.total_time_ms }

/-- Embedding of `run_test_flow_stream`: the full list of SSE events of one
run (the generator, fully drained). -/
def run_test_flow_stream (env : Env) (flow : TestFlow) : List Event :=
  let nodes := flow.nodes
  let edges := flow.edges
  match topological_sort nodes edges with
  | Except.error e => [Event.error e, Event.done {} []]
  | Except.ok execution_order =>
    let executable := execution_order.filter (fun nid =>
      match nodes.find? (fun n => n.id == nid) with
      | some n => n.node_type != "group"
      | none => false)
    let st0 : RunState := {
      vars := flow.variables_, results := [], skipped := [],
      exec_index := 0, calls := 0, events := [] }
    let stF := execution_order.foldl (runNode env nodes edges) st0
    [Event.start executable.length flow.name] ++ stF.events
      ++ [Event.done (build_summary stF.results) stF.vars]

/-! ## C7: `_compare` semantics -/

theorem beq_rat_decide (a b : Rat) : (a == b) = decide (a = b) := by
  cases h : decide (a = b) <;> simp_all [beq_iff_eq]

theorem bne_rat_decide (a b : Rat) : (a != b) = decide (a ≠ b) := by
  cases h : decide (a ≠ b) <;> simp_all [bne_iff_ne]

/-- Numeric branch of `_compare`: when both operands parse as numbers the
six relational operators compare numerically. -/
theorem pycompare_numeric (research : String → String → Bool) (a : PyVal) (e : String)
    (qa qe : Rat) (ha : pyFloat a = some qa) (he : parseDecimal e = some qe) :
    pycompare research a e "eq" = decide (qa = qe)
    ∧ pycompare research a e "neq" = decide (qa ≠ qe)
    ∧ pycompare research a e "gt" = decide (qe < qa)
    ∧ pycompare research a e "lt" = decide (qa < qe)
    ∧ pycompare research a e "gte" = decide (qe ≤ qa)
    ∧ pycompare research a e "lte" = decide (qa ≤ qe) := by
  cases a <;> simp only [pyFloat] at ha <;>
    simp_all [pycompare, pyFloat, beq_rat_decide, bne_rat_decide]

/-- String branch of `_compare`: on numeric-parse failure, the five string
operators apply to `str(actual)`. -/
theorem pycompare_fallback (research : String → String → Bool) (a : PyVal) (e : String)
    (hne : a ≠ PyVal.none) (hor : pyFloat a = none ∨ parseDecimal e = none) :
    pycompare research a e "eq" = (pyStr a == e)
    ∧ pycompare research a e "neq" = (pyStr a != e)
    ∧ pycompare research a e "contains" = decide (List.IsInfix e.toList (pyStr a).toList)
    ∧ pycompare research a e "not_contains" = !decide (List.IsInfix e.toList (pyStr a).toList)
    ∧ pycompare research a e "regex" = research e (pyStr a) := by
  cases a
  · exact absurd rfl hne
  all_goals
    rcases hor with h | h <;>
      simp_all [pycompare, pyFloat, stringCompare]

/-- C7.  `_compare` first parses both operands as numbers and applies
`eq|neq|gt|lt|gte|lte` numerically; when parsing does not apply it falls
back to string semantics for `eq|neq|contains|not_contains|regex`; a `None`
actual passes only `eq` against the empty expected string; in particular
`status_code eq "200"` passes for the integer `200` and
`response_time lt "500"` passes for `elapsed_ms = 120.5`. -/
theorem compare_semantics :
    (∀ research e op, pycompare research PyVal.none e op = true ↔ op = "eq" ∧ e = "")
    ∧ (∀ research a e qa qe, pyFloat a = some qa → parseDecimal e = some qe →
        pycompare research a e "eq" = decide (qa = qe)
        ∧ pycompare research a e "neq" = decide (qa ≠ qe)
        ∧ pycompare research a e "gt" = decide (qe < qa)
        ∧ pycompare research a e "lt" = decide (qa < qe)
        ∧ pycompare research a e "gte" = decide (qe ≤ qa)
        ∧ pycompare research a e "lte" = decide (qa ≤ qe))
    ∧ (∀ research a e, a ≠ PyVal.none → pyFloat a = none ∨ parseDecimal e = none →
        pycompare research a e "eq" = (pyStr a == e)
        ∧ pycompare research a e "neq" = (pyStr a != e)
        ∧ pycompare research a e "contains" = decide (List.IsInfix e.toList (pyStr a).toList)
        ∧ pycompare research a e "not_contains" = !decide (List.IsInfix e.toList (pyStr a).toList)
        ∧ pycompare research a e "regex" = research e (pyStr a))
    ∧ (∀ research, pycompare research (PyVal.int 200) "200" "eq" = true)
    ∧ (∀ research, pycompare research (PyVal.num (241/2)) "500" "lt" = true) := by
  refine ⟨?_, fun r a e qa qe ha he => pycompare_numeric r a e qa qe ha he,
    fun r a e hne hor => pycompare_fallback r a e hne hor, ?_, ?_⟩
  · intro research e op
    simp [pycompare]
  · intro research
    have h := (pycompare_numeric research (PyVal.int 200) "200" 200 200 rfl (by decide)).1
    rw [h]
    decide
  · intro research
    have h := (pycompare_numeric research (PyVal.num (241/2)) "500" (241/2) 500 rfl
      (by decide)).2.2.2.1
    rw [h]
    norm_num

/-- Closed instance of `compare_semantics`, discharging its hypotheses at
concrete inputs. -/
theorem compare_semantics_witness :
    (pycompare (fun _ _ => false) PyVal.none "" "eq" = true ↔ "eq" = "eq" ∧ "" = "")
    ∧ pycompare (fun _ _ => false) (PyVal.int 7) "9" "lt" = decide ((7:Rat) < 9)
    ∧ pycompare (fun _ _ => false) (PyVal.str "hello") "ell" "contains"
        = decide (List.IsInfix "ell".toList "hello".toList)
    ∧ pycompare (fun _ _ => false) (PyVal.int 200) "200" "eq" = true := by
  refine ⟨compare_semantics.1 _ _ _, ?_, ?_, compare_semantics.2.2.2.1 _⟩
  · exact (compare_semantics.2.1 (fun _ _ => false) (PyVal.int 7) "9" 7 9
      rfl (by decide)).2.2.2.1
  · exact (compare_semantics.2.2.1 (fun _ _ => false) (PyVal.str "hello") "ell"
      (by intro h; cases h) (Or.inl (by decide))).2.2.1

end TestFlowRunner

namespace TestFlowRunner

/-! ## C6 and C8: assertion-node semantics -/

/-- A fixed stub environment for concrete runs: executors succeed with an
empty result, expressions evaluate to `True`, regexes never match, JSON
never parses, the clock reads zero. -/
def trivEnv : Env := {
  exec := fun _ _ _ _ => Except.ok {}
  evalExpr := fun _ _ => Except.ok true
  research := fun _ _ => false
  jsonParse := fun _ => Except.error "invalid"
  clock := fun _ => 0 }

/-- An upstream `http_request` success result used by concrete assertion
scenarios. -/
def upOk : NodeResult :=
  { status := "success", node_type := some "http_request", status_code := some 200 }

/-- C6 counterexample.  An assertion node with an empty configured-assertion
list and a healthy upstream result: all (zero) configured assertions pass,
yet `branch_taken` is absent rather than `"true"` — `_exec_assertion`
returns before looking upstream. -/
theorem assertion_iff_counterexample :
    find_upstream_http_result "B"
        [{ id := "e", source_node_id := "A", target_node_id := "B" }]
        [{ id := "A", node_type := "http_request" }, { id := "B", node_type := "assertion" }]
        [("A", upOk)] = some upOk
    ∧ upOk.status ≠ "error"
    ∧ (([] : List Assertion).all (fun a => (evalAssertion trivEnv upOk a).passed)) = true
    ∧ (exec_assertion trivEnv { assertions := [] } [("A", upOk)]
        [{ id := "e", source_node_id := "A", target_node_id := "B" }]
        "B"
        [{ id := "A", node_type := "http_request" }, { id := "B", node_type := "assertion" }]
        ).branch_taken ≠ some "true" := by
  refine ⟨by decide, by decide, by decide, by decide⟩

/-- C6 (amended: at least one configured assertion).  For an assertion node
with a non-empty assertion list and a non-failed upstream HTTP result,
`branch_taken = "true"` iff every configured assertion passes, and the
node's own status is `"success"` iff every assertion passes (else
`"error"`). -/
theorem assertion_branch_iff_all_pass (env : Env) (config : NodeConfig)
    (node_results : List (String × NodeResult)) (edges : List TestFlowEdge)
    (node_id : String) (nodes : List TestFlowNode) (upstream : NodeResult)
    (hne : config.assertions ≠ [])
    (hup : find_upstream_http_result node_id edges nodes node_results = some upstream)
    (hst : upstream.status ≠ "error") :
    (exec_assertion env config node_results edges node_id nodes).assertion_results
      = config.assertions.map (evalAssertion env upstream)
    ∧ ((exec_assertion env config node_results edges node_id nodes).branch_taken = some "true"
        ↔ config.assertions.all (fun a => (evalAssertion env upstream a).passed) = true)
    ∧ ((exec_assertion env config node_results edges node_id nodes).status = "success"
        ↔ config.assertions.all (fun a => (evalAssertion env upstream a).passed) = true)
    ∧ ((exec_assertion env config node_results edges node_id nodes).status = "error"
        ↔ ¬ config.assertions.all (fun a => (evalAssertion env upstream a).passed) = true) := by
  have hbeq : (upstream.status == "error") = false := by
    simp [hst]
  have hne' : config.assertions.isEmpty = false := by
    cases hca : config.assertions <;> simp_all
  have hall : (config.assertions.map (evalAssertion env upstream)).all (·.passed)
      = config.assertions.all (fun a => (evalAssertion env upstream a).passed) := by
    induction config.assertions with
    | nil => rfl
    | cons a l ih => simp [ih]
  cases hc : config.assertions.all (fun a => (evalAssertion env upstream a).passed) <;>
    simp_all [exec_assertion, hup, hne', hbeq, hall]

/-- Closed instance of `assertion_branch_iff_all_pass` at a concrete
one-assertion node whose `status_code eq "200"` check passes. -/
theorem assertion_branch_iff_all_pass_witness :
    (exec_assertion trivEnv { assertions := [{ atype := "status_code", operator := "eq", expected := "200" }] }
      [("A", upOk)]
      [{ id := "e", source_node_id := "A", target_node_id := "B" }]
      "B"
      [{ id := "A", node_type := "http_request" }, { id := "B", node_type := "assertion" }]
      ).branch_taken = some "true"
    ↔ [({ atype := "status_code", operator := "eq", expected := "200" } : Assertion)].all
        (fun a => (evalAssertion trivEnv upOk a).passed) = true :=
  (assertion_branch_iff_all_pass trivEnv
    { assertions := [{ atype := "status_code", operator := "eq", expected := "200" }] }
    [("A", upOk)]
    [{ id := "e", source_node_id := "A", target_node_id := "B" }]
    "B"
    [{ id := "A", node_type := "http_request" }, { id := "B", node_type := "assertion" }]
    upOk (by decide) (by decide) (by decide)).2.1

end TestFlowRunner

namespace TestFlowRunner

/-- An upstream result that failed, for concrete assertion scenarios. -/
def upFail : NodeResult :=
  { status := "error", error := some "boom", node_type := some "http_request" }

/-- C8 counterexample.  With one configured assertion and no upstream
HTTP-like node, `_exec_assertion` returns an *empty* `assertion_results`
list — not one failed entry per configured assertion as claimed. -/
theorem assertion_no_upstream_counterexample :
    find_upstream_http_result "B" [] [{ id := "B", node_type := "assertion" }] [] = none
    ∧ ({ assertions := [{}] } : NodeConfig).assertions.length = 1
    ∧ (exec_assertion trivEnv { assertions := [{}] } [] [] "B"
        [{ id := "B", node_type := "assertion" }]).assertion_results.length = 0 := by
  exact ⟨rfl, rfl, rfl⟩

/-- C8 (amended: the per-assertion failed entries appear only in the
upstream-*failed* case; the no-upstream case yields an error status with an
explanatory node-level error, an empty `assertion_results`, and
`branch_taken = "false"`).  For a non-empty assertion list: no upstream
gives the fixed error result with empty entries; a failed upstream gives one
failed, error-carrying entry per configured assertion and
`branch_taken = "false"`. -/
theorem assertion_upstream_missing_or_failed (env : Env) (config : NodeConfig)
    (node_results : List (String × NodeResult)) (edges : List TestFlowEdge)
    (node_id : String) (nodes : List TestFlowNode)
    (hne : config.assertions ≠ []) :
    (find_upstream_http_result node_id edges nodes node_results = none →
      exec_assertion env config node_results edges node_id nodes =
        { status := "error", error := some "No upstream HTTP request found for assertion",
          assertion_results := [], branch_taken := some "false" })
    ∧ (∀ upstream, find_upstream_http_result node_id edges nodes node_results = some upstream →
        upstream.status = "error" →
        (exec_assertion env config node_results edges node_id nodes).assertion_results.length
            = config.assertions.length
        ∧ (∀ ar ∈ (exec_assertion env config node_results edges node_id nodes).assertion_results,
            ar.passed = false ∧ ar.error ≠ none)
        ∧ (exec_assertion env config node_results edges node_id nodes).branch_taken = some "false"
        ∧ (exec_assertion env config node_results edges node_id nodes).status = "error") := by
  have hne' : config.assertions.isEmpty = false := by
    cases hca : config.assertions <;> simp_all
  constructor
  · intro hnone
    simp [exec_assertion, hne', hnone]
  · intro upstream hup hst
    have hbeq : (upstream.status == "error") = true := by simp [hst]
    refine ⟨?_, ?_, ?_, ?_⟩ <;>
      simp [exec_assertion, hne', hup, hbeq]

/-- Closed instance of `assertion_upstream_missing_or_failed` at concrete
inputs: a node with no upstream, and one whose upstream failed. -/
theorem assertion_upstream_missing_or_failed_witness :
    exec_assertion trivEnv { assertions := [{}] } [] [] "B"
        [{ id := "B", node_type := "assertion" }] =
      { status := "error", error := some "No upstream HTTP request found for assertion",
        assertion_results := [], branch_taken := some "false" }
    ∧ (exec_assertion trivEnv { assertions := [{}] } [("A", upFail)]
        [{ id := "e", source_node_id := "A", target_node_id := "B" }] "B"
        [{ id := "A", node_type := "http_request" }, { id := "B", node_type := "assertion" }]
        ).assertion_results.length = ({ assertions := [{}] } : NodeConfig).assertions.length := by
  constructor
  · exact (assertion_upstream_missing_or_failed trivEnv { assertions := [{}] } [] [] "B"
      [{ id := "B", node_type := "assertion" }] (by decide)).1 (by decide)
  · exact ((assertion_upstream_missing_or_failed trivEnv { assertions := [{}] } [("A", upFail)]
      [{ id := "e", source_node_id := "A", target_node_id := "B" }] "B"
      [{ id := "A", node_type := "http_request" }, { id := "B", node_type := "assertion" }]
      (by decide)).2 upFail (by decide) rfl).1

end TestFlowRunner

namespace TestFlowRunner

/-! ## Generic facts about the BFS and Kahn loops -/

/-- Everything BFS visits was already visited or is unblocked. -/
theorem bfsLoop_mem_unblocked (out : String → List TestFlowEdge) (blocked : String → Bool) :
    ∀ fuel queue visited x, x ∈ bfsLoop out blocked fuel queue visited →
      x ∈ visited ∨ blocked x = false := by
  intro fuel
  induction fuel with
  | zero => intro queue visited x hx; exact Or.inl hx
  | succ fuel ih =>
    intro queue visited x hx
    match queue with
    | [] => exact Or.inl hx
    | nid :: rest =>
      simp only [bfsLoop] at hx
      by_cases hv : visited.contains nid || blocked nid
      · rw [if_pos hv] at hx
        exact ih rest visited x hx
      · rw [if_neg hv] at hx
        rcases ih _ _ x hx with h | h
        · rcases List.mem_append.mp h with h | h
          · exact Or.inl h
          · right
            simp only [List.mem_singleton] at h
            subst h
            have h2 : ¬(visited.contains x || blocked x) = true := hv
            simp only [Bool.or_eq_true, not_or] at h2
            simpa using h2.2
        · exact Or.inr h
  
/-- The queue after `relaxEdges` is the old queue plus freshly enqueued
targets, all of which satisfy `isNode`. -/
theorem relaxEdges_queue_shape (isNode : String → Bool) :
    ∀ es d q, ∃ ts, (relaxEdges isNode es d q).2 = q ++ ts
      ∧ ∀ t ∈ ts, isNode t = true := by
  intro es
  induction es with
  | nil => intro d q; exact ⟨[], by simp [relaxEdges], by simp⟩
  | cons e rest ih =>
    intro d q
    simp only [relaxEdges]
    by_cases hn : isNode e.target_node_id
    · rw [if_pos hn]
      by_cases hz : (fun x => if x == e.target_node_id then d x - 1 else d x) e.target_node_id == 0
      · rw [if_pos hz]
        obtain ⟨ts, hts, hall⟩ := ih (fun x => if x == e.target_node_id then d x - 1 else d x)
          (q ++ [e.target_node_id])
        refine ⟨e.target_node_id :: ts, by simpa using hts, ?_⟩
        intro t ht
        rcases List.mem_cons.mp ht with rfl | ht
        · exact hn
        · exact hall t ht
      · rw [if_neg hz]
        exact ih _ q
    · rw [if_neg hn]
      exact ih d q

/-- Everything in a Kahn-loop order came from the initial order, the
initial queue, or satisfies `isNode`. -/
theorem kahnLoop_mem (out : String → List TestFlowEdge) (isNode : String → Bool) :
    ∀ fuel q d o x, x ∈ (kahnLoop out isNode fuel q d o).1 →
      x ∈ o ∨ x ∈ q ∨ isNode x = true := by
  intro fuel
  induction fuel with
  | zero => intro q d o x hx; exact Or.inl hx
  | succ fuel ih =>
    intro q d o x hx
    match q with
    | [] => exact Or.inl hx
    | nid :: rest =>
      simp only [kahnLoop] at hx
      rcases ih _ _ _ x hx with h | h | h
      · rcases List.mem_append.mp h with h | h
        · exact Or.inl h
        · simp only [List.mem_singleton] at h
          subst h
          exact Or.inr (Or.inl (List.mem_cons_self _ _))
      · obtain ⟨ts, hts, hall⟩ := relaxEdges_queue_shape isNode (out nid) d rest
        rw [hts] at h
        rcases List.mem_append.mp h with h | h
        · exact Or.inr (Or.inl (List.mem_cons_of_mem _ h))
        · exact Or.inr (Or.inr (hall x h))
      · exact Or.inr (Or.inr h)

end TestFlowRunner

namespace TestFlowRunner

/-! ## C4: loop `count` mode -/

def isLoopIterationEvent : Event → Bool
  | Event.loop_iteration _ _ _ => true
  | _ => false

/-- Events that record one handling (execution or in-body skip) of body
node `v` during a loop pass. -/
def isBodyEventFor (v : String) : Event → Bool
  | Event.node_result_iter nid _ _ => nid == v
  | Event.node_skipped_iter nid _ _ => nid == v
  | _ => false

/-- One pass over the body order emits no `loop_iteration` events and
exactly one body event per occurrence of a node in the order. -/
theorem loopBodyPass_counts (env : Env) (edges : List TestFlowEdge)
    (nodes : List TestFlowNode) (bset : List String) (i : Int) :
    ∀ order st, (∀ v ∈ order, (nodes.find? (fun n => n.id == v)).isSome) →
    ((loopBodyPass env edges nodes bset i order st).sub_events.countP isLoopIterationEvent
      = st.sub_events.countP isLoopIterationEvent)
    ∧ ∀ v, (loopBodyPass env edges nodes bset i order st).sub_events.countP (isBodyEventFor v)
      = st.sub_events.countP (isBodyEventFor v) + order.count v := by
  intro order
  induction order with
  | nil =>
    intro st _
    exact ⟨rfl, fun v => by simp [loopBodyPass, List.count_nil]⟩
  | cons b rest ih =>
    intro st hex
    have hb : (nodes.find? (fun n => n.id == b)).isSome := hex b (by simp)
    have hrest : ∀ v ∈ rest, (nodes.find? (fun n => n.id == v)).isSome :=
      fun v hv => hex v (by simp [hv])
    obtain ⟨bn, hbn⟩ := Option.isSome_iff_exists.mp hb
    simp only [loopBodyPass]
    by_cases hsk : st.body_skipped.contains b
    · rw [if_pos hsk]
      obtain ⟨h1, h2⟩ := ih _ hrest
      refine ⟨?_, fun v => ?_⟩
      · rw [h1]
        simp [List.countP_append, isLoopIterationEvent]
      · rw [h2 v]
        simp only [List.countP_append, List.count_cons]
        by_cases hbv : b == v <;>
          simp [isBodyEventFor, hbv] <;> omega
    · rw [if_neg hsk, hbn]
      obtain ⟨h1, h2⟩ := ih _ hrest
      refine ⟨?_, fun v => ?_⟩
      · rw [h1]
        simp [List.countP_append, isLoopIterationEvent]
      · rw [h2 v]
        simp only [List.countP_append, List.count_cons]
        by_cases hbv : b == v <;>
          simp [isBodyEventFor, hbv] <;> omega

/-- In `count` mode the iteration loop never breaks: it emits one
`loop_iteration` event per remaining iteration and one body event per
iteration per occurrence in the body order. -/
theorem loopIterate_counts (env : Env) (edges : List TestFlowEdge)
    (nodes : List TestFlowNode) (nid : String) (bset border lbn : List String)
    (cond : String) (iters : Int)
    (hex : ∀ v ∈ border, (nodes.find? (fun n => n.id == v)).isSome) :
    ∀ is st,
    ((loopIterate env edges nodes nid bset border lbn "count" cond iters is st).sub_events.countP
        isLoopIterationEvent = st.sub_events.countP isLoopIterationEvent + is.length)
    ∧ ∀ v, (loopIterate env edges nodes nid bset border lbn "count" cond iters is st).sub_events.countP
        (isBodyEventFor v)
      = st.sub_events.countP (isBodyEventFor v) + is.length * border.count v := by
  intro is
  induction is with
  | nil =>
    intro st
    simp [loopIterate]
  | cons i rest ih =>
    intro st
    simp only [loopIterate]
    have hmode : (("count" : String) == "condition") = false := by decide
    rw [hmode]
    simp only [Bool.false_eq_true, if_false]
    obtain ⟨hp1, hp2⟩ := loopBodyPass_counts env edges nodes bset i border
      { vars := st.vars, results := st.results, calls := st.calls,
        sub_events := [], last_http := none, body_skipped := [] } hex
    obtain ⟨h1, h2⟩ := ih _
    refine ⟨?_, fun v => ?_⟩
    · rw [h1]
      dsimp only
      simp only [List.countP_append, hp1, List.countP_nil, List.length_cons]
      have hone : List.countP isLoopIterationEvent [Event.loop_iteration nid i iters] = 1 := by
        simp [isLoopIterationEvent]
      rw [hone]
      omega
    · rw [h2 v]
      dsimp only
      simp only [List.countP_append, hp2 v, List.countP_nil, List.length_cons]
      have hzero : List.countP (isBodyEventFor v) [Event.loop_iteration nid i iters] = 0 := by
        simp [isBodyEventFor]
      rw [hzero]
      ring

end TestFlowRunner

namespace TestFlowRunner

/-- Every id in a loop's body order names an existing node (the body BFS
refuses unknown ids, and the local Kahn order only contains body ids). -/
theorem loopBodyOrder_mem_find (edges : List TestFlowEdge) (nodes : List TestFlowNode)
    (node : TestFlowNode) :
    ∀ v ∈ loopBodyOrder edges (loopBodyNodes edges nodes node),
      (nodes.find? (fun n => n.id == v)).isSome := by
  intro v hv
  have hlbn : ∀ x, x ∈ loopBodyNodes edges nodes node →
      (nodes.find? (fun n => n.id == x)).isSome := by
    intro x hx
    simp only [loopBodyNodes] at hx
    rcases bfsLoop_mem_unblocked _ _ _ _ _ x hx with h | h
    · simp at h
    · simp only [Bool.or_eq_false_iff, Bool.not_eq_false'] at h
      have hany := h.2
      rw [List.find?_isSome]
      simpa [List.any_eq_true] using hany
  simp only [loopBodyOrder] at hv
  rcases kahnLoop_mem _ _ _ _ _ _ v hv with h | h | h
  · simp at h
  · exact hlbn v (List.mem_of_mem_filter h)
  · exact hlbn v (by simpa using h)

/-- C4.  A loop node in `count` mode runs its body order exactly
`min(count, max_iterations)` times (as a natural number: a negative
configured count runs zero times): the sub-events contain exactly that many
`loop_iteration` events, and, for every node id, that many body events per
occurrence of the id in the body order. -/
theorem loop_count_iterations (env : Env) (node : TestFlowNode) (config : NodeConfig)
    (vars : List (String × String)) (results : List (String × NodeResult))
    (edges : List TestFlowEdge) (nodes : List TestFlowNode)
    (skipped : List String) (calls : Nat)
    (hmode : config.mode = "count") :
    ((exec_loop env node config vars results edges nodes skipped calls).sub_events.countP
        isLoopIterationEvent = (min config.count config.max_iterations).toNat)
    ∧ ∀ v, (exec_loop env node config vars results edges nodes skipped calls).sub_events.countP
        (isBodyEventFor v)
      = (min config.count config.max_iterations).toNat
        * (loopBodyOrder edges (loopBodyNodes edges nodes node)).count v := by
  have hex := loopBodyOrder_mem_find edges nodes node
  unfold exec_loop
  rw [hmode]
  simp only [show (("count" : String) == "count") = true by decide, if_true]
  obtain ⟨h1, h2⟩ := loopIterate_counts env edges nodes node.id
    (loopBodyNodes edges nodes node) (loopBodyOrder edges (loopBodyNodes edges nodes node))
    (loopBodyNodes edges nodes node) config.condition
    (min config.count config.max_iterations) hex
    ((List.range (min config.count config.max_iterations).toNat).map
      (fun k : Nat => ((k : Int) + 1)))
    { completed := 0, vars := vars, results := results, skipped := skipped,
      calls := calls, sub_events := [] }
  constructor
  · rw [h1]
    simp
  · intro v
    rw [h2 v]
    simp

end TestFlowRunner

namespace TestFlowRunner

def loopN3 : TestFlowNode :=
  { id := "L", node_type := "loop", config := { mode := "count", count := 3 } }

def loopN52 : TestFlowNode :=
  { id := "L", node_type := "loop", config := { mode := "count", count := 5, max_iterations := 2 } }

def loopEs : List TestFlowEdge :=
  [{ id := "lb", source_node_id := "L", target_node_id := "X", source_handle := some "source-loop" }]

def loopNs3 : List TestFlowNode := [loopN3, { id := "X", node_type := "delay" }]

def loopNs52 : List TestFlowNode := [loopN52, { id := "X", node_type := "delay" }]

/-- Closed instance of `loop_count_iterations`: `count=3` emits three
`loop_iteration` events; `count=5, max_iterations=2` emits two. -/
theorem loop_count_iterations_witness :
    (exec_loop trivEnv loopN3 loopN3.config [] [] loopEs loopNs3 [] 0).sub_events.countP
        isLoopIterationEvent = 3
    ∧ (exec_loop trivEnv loopN52 loopN52.config [] [] loopEs loopNs52 [] 0).sub_events.countP
        isLoopIterationEvent = 2 :=
  ⟨((loop_count_iterations trivEnv loopN3 loopN3.config [] [] loopEs loopNs3 [] 0 rfl).1).trans
      (by decide),
   ((loop_count_iterations trivEnv loopN52 loopN52.config [] [] loopEs loopNs52 [] 0 rfl).1).trans
      (by decide)⟩

end TestFlowRunner

namespace TestFlowRunner

/-! ## Kahn invariants (`_topological_sort` correctness, C1 and C2) -/

/-- There is an edge from `a` to `b`. -/
def edgeRel (edges : List TestFlowEdge) (a b : String) : Prop :=
  ∃ e ∈ edges, e.source_node_id = a ∧ e.target_node_id = b

/-- `c` is a directed cycle: consecutive elements are joined by edges and
the last wraps around to the first. -/
def IsCycle (edges : List TestFlowEdge) (c : List String) : Prop :=
  c ≠ [] ∧ List.Chain' (edgeRel edges) c ∧ edgeRel edges (c.getLastD "") (c.headD "")

/-- `s` is the id of a non-`group` node of the flow. -/
def isNonGroupId (nodes : List TestFlowNode) (s : String) : Bool :=
  nodes.any (fun n => n.id == s && n.node_type != "group")

/-- Number of edges into `v` from acceptable sources not yet in the order
`o` — the value Kahn's `in_degree[v]` holds for a node `v`. -/
def degCount (edges : List TestFlowEdge) (srcOK : String → Bool) (o : List String)
    (v : String) : Nat :=
  edges.countP (fun e =>
    e.target_node_id == v && srcOK e.source_node_id && !(o.contains e.source_node_id))

/-- All acceptable sources of edges into `v` have been emitted into `o`. -/
def srcsDone (edges : List TestFlowEdge) (srcOK : String → Bool) (o : List String)
    (v : String) : Prop :=
  ∀ e ∈ edges, e.target_node_id = v → srcOK e.source_node_id = true → e.source_node_id ∈ o

theorem degCount_eq_zero_iff (edges : List TestFlowEdge) (srcOK : String → Bool)
    (o : List String) (v : String) :
    degCount edges srcOK o v = 0 ↔ srcsDone edges srcOK o v := by
  unfold degCount srcsDone
  rw [List.countP_eq_zero]
  constructor
  · intro h e he htgt hok
    have h2 := h e he
    by_contra hmem
    apply h2
    simp [htgt, hok, List.elem_eq_mem, hmem]
  · intro h e he hp
    simp only [Bool.and_eq_true, beq_iff_eq, Bool.not_eq_true', List.elem_eq_mem,
      decide_eq_false_iff_not] at hp
    exact hp.2 (h e he hp.1.1 hp.1.2)

/-- Appending a fresh acceptable source `u` to the order decreases each
node's remaining in-degree by the number of `u → v` edges. -/
theorem degCount_snoc (edges : List TestFlowEdge) (srcOK : String → Bool)
    (o : List String) (u v : String) (hu : srcOK u = true) (hno : u ∉ o) :
    degCount edges srcOK o v
      = degCount edges srcOK (o ++ [u]) v
        + (buildOutgoing edges u).countP (fun e => e.target_node_id == v) := by
  unfold degCount buildOutgoing
  rw [List.countP_filter]
  induction edges with
  | nil => simp
  | cons e es ih =>
    rw [List.countP_cons, List.countP_cons, List.countP_cons]
    by_cases h1 : e.source_node_id = u
    · have hc1 : (o.contains e.source_node_id) = false := by
        simp [List.elem_eq_mem, h1, hno]
      have hc2 : ((o ++ [u]).contains e.source_node_id) = true := by
        simp [List.elem_eq_mem, h1]
      by_cases h2 : e.target_node_id = v <;>
        simp_all <;> omega
    · have hcc : ((o ++ [u]).contains e.source_node_id) = (o.contains e.source_node_id) := by
        simp [List.elem_eq_mem, h1]
      have h3 : (e.target_node_id == v && (e.source_node_id == u)) = false := by
        simp [h1]
      by_cases h2 : e.target_node_id = v <;>
        by_cases h4 : srcOK e.source_node_id = true <;>
          by_cases h5 : o.contains e.source_node_id = true <;>
            simp_all <;> omega

end TestFlowRunner

namespace TestFlowRunner

theorem srcsDone_mono (edges : List TestFlowEdge) (srcOK : String → Bool)
    {o o' : List String} (hsub : ∀ x ∈ o, x ∈ o') {v : String}
    (h : srcsDone edges srcOK o v) : srcsDone edges srcOK o' v :=
  fun e he htgt hok => hsub _ (h e he htgt hok)

/-- Invariant of Kahn's `while queue:` loop over state (`o`: emitted order,
`q`: pending queue, `d`: in-degree table).  `isNode` guards decrement and
enqueue (key presence in `in_degree`), `srcOK` says which edge sources are
counted by the initial in-degrees, `seedOK` says which zero-degree nodes the
initial queue was seeded with. -/
structure KahnInv (edges : List TestFlowEdge) (isNode srcOK seedOK : String → Bool)
    (o q : List String) (d : String → Int) : Prop where
  nodup : (o ++ q).Nodup
  mem : ∀ v ∈ o ++ q, isNode v = true
  deg : ∀ v, isNode v = true → d v = (degCount edges srcOK o v : Int)
  zero : ∀ v ∈ o ++ q, d v = 0
  srcq : ∀ v ∈ q, srcsDone edges srcOK o v
  srco : ∀ i (h : i < o.length), srcsDone edges srcOK (o.take i) (o.get ⟨i, h⟩)
  newz : ∀ v, isNode v = true → seedOK v = true → d v = 0 → v ∈ o ++ q

/-- Invariant holding midway through `relaxEdges` while node `u` (just
dequeued, order so far `o`) is being processed; `es` is the unprocessed
suffix of `u`'s out-edges. -/
structure RelaxInv (edges : List TestFlowEdge) (isNode srcOK seedOK : String → Bool)
    (u : String) (o : List String) (es : List TestFlowEdge) (d : String → Int)
    (q : List String) : Prop where
  hpre : ∃ pre, pre ++ es = buildOutgoing edges u ∧
    ∀ v, isNode v = true →
      d v + (pre.countP (fun e => e.target_node_id == v) : Int)
        = (degCount edges srcOK o v : Int)
  nodup : (o ++ u :: q).Nodup
  mem : ∀ v ∈ o ++ u :: q, isNode v = true
  zero : ∀ v ∈ o ++ u :: q, d v = 0
  noTgt : ∀ e ∈ es, e.target_node_id ∉ o ++ u :: q
  srcq : ∀ v ∈ q, srcsDone edges srcOK (o ++ [u]) v
  srco : ∀ i (h : i < o.length), srcsDone edges srcOK (o.take i) (o.get ⟨i, h⟩)
  srcu : srcsDone edges srcOK o u
  newz : ∀ v, isNode v = true → seedOK v = true → d v = 0 → v ∈ o ++ u :: q

end TestFlowRunner

namespace TestFlowRunner

theorem countP_snoc_eq (pre : List TestFlowEdge) (e : TestFlowEdge) (v : String)
    (h : (e.target_node_id == v) = false) :
    (pre ++ [e]).countP (fun x => x.target_node_id == v)
      = pre.countP (fun x => x.target_node_id == v) := by
  rw [List.countP_append]
  simp [h]

theorem countP_snoc_self (pre : List TestFlowEdge) (e : TestFlowEdge) :
    (pre ++ [e]).countP (fun x => x.target_node_id == e.target_node_id)
      = pre.countP (fun x => x.target_node_id == e.target_node_id) + 1 := by
  rw [List.countP_append]
  simp

/-- The degree-count predicate of `degCount`, as a standalone function. -/
def degPred (srcOK : String → Bool) (o : List String) (t : String) : TestFlowEdge → Bool :=
  fun e => e.target_node_id == t && srcOK e.source_node_id && !(o.contains e.source_node_id)

theorem degCount_eq_countP (edges : List TestFlowEdge) (srcOK : String → Bool)
    (o : List String) (t : String) :
    degCount edges srcOK o t = edges.countP (degPred srcOK o t) := rfl

/-- Edges out of a fresh acceptable source `u` into `t` are a sub-multiset of
the edges `degCount … o t` counts. -/
theorem filter_out_sub_deg (edges : List TestFlowEdge) (srcOK : String → Bool)
    (o : List String) (u t : String) (huok : srcOK u = true) (huno : u ∉ o) :
    List.Sublist
      (edges.filter (fun x => x.target_node_id == t && x.source_node_id == u))
      (edges.filter (degPred srcOK o t)) := by
  apply List.monotone_filter_right
  intro a ha
  simp only [Bool.and_eq_true, beq_iff_eq] at ha
  obtain ⟨htgt, hsrc⟩ := ha
  have h1 : (a.target_node_id == t) = true := by simp [htgt]
  have h2 : srcOK a.source_node_id = true := by rw [hsrc]; exact huok
  have h3 : (o.contains a.source_node_id) = false := by
    rw [hsrc]; simp [List.elem_eq_mem, huno]
  simp only [degPred, h1, h2, h3]
  rfl

theorem outgoing_filter_tgt (edges : List TestFlowEdge) (u t : String) :
    (buildOutgoing edges u).filter (fun x => x.target_node_id == t)
      = edges.filter (fun x => x.target_node_id == t && x.source_node_id == u) := by
  unfold buildOutgoing
  rw [List.filter_filter]

/-- One step of `relaxEdges` preserves `RelaxInv`; by induction the whole
edge sweep does. -/
theorem relaxEdges_inv (edges : List TestFlowEdge) (isNode srcOK seedOK : String → Bool)
    (hSrc : ∀ v, isNode v = true → srcOK v = true) (u : String) (o : List String) :
    ∀ es d q, RelaxInv edges isNode srcOK seedOK u o es d q →
      RelaxInv edges isNode srcOK seedOK u o []
        (relaxEdges isNode es d q).1 (relaxEdges isNode es d q).2 := by
  intro es
  induction es with
  | nil =>
    intro d q h
    simpa only [relaxEdges] using h
  | cons e rest ih =>
    intro d q h
    obtain ⟨pre, hpre_eq, hpre_deg⟩ := h.hpre
    have humem : u ∈ o ++ u :: q := by simp
    have hunode : isNode u = true := h.mem u humem
    have huok : srcOK u = true := hSrc u hunode
    have huno : u ∉ o := by
      have hnd := h.nodup
      rw [List.nodup_append] at hnd
      exact fun ho => hnd.2.2 ho (List.mem_cons_self _ _)
    have hd2 : ∀ v, v ≠ e.target_node_id →
        (if v == e.target_node_id then d v - 1 else d v) = d v := by
      intro v hv
      rw [if_neg (by simpa using hv)]
    have hpre' : ∀ v, isNode v = true → v ≠ e.target_node_id →
        (if v == e.target_node_id then d v - 1 else d v)
          + ((pre ++ [e]).countP (fun x => x.target_node_id == v) : Int)
          = (degCount edges srcOK o v : Int) := by
      intro v hv hvne
      rw [hd2 v hvne, countP_snoc_eq pre e v (by simpa using fun hh => hvne hh.symm)]
      exact hpre_deg v hv
    by_cases hn : isNode e.target_node_id = true
    · have hpre_t : isNode e.target_node_id = true →
          (if e.target_node_id == e.target_node_id then d e.target_node_id - 1
              else d e.target_node_id)
            + ((pre ++ [e]).countP (fun x => x.target_node_id == e.target_node_id) : Int)
            = (degCount edges srcOK o e.target_node_id : Int) := by
        intro _
        rw [countP_snoc_self pre e]
        have := hpre_deg e.target_node_id hn
        simp only [beq_self_eq_true, if_true]
        push_cast
        omega
      by_cases hz : (d e.target_node_id - 1 == 0) = true
      · -- enqueue case
        have step : relaxEdges isNode (e :: rest) d q
            = relaxEdges isNode rest (fun x => if x == e.target_node_id then d x - 1 else d x)
                (q ++ [e.target_node_id]) := by
          simp only [relaxEdges]
          rw [if_pos hn]
          simp only [beq_self_eq_true, if_true, hz]
        rw [step]
        have hdt1 : d e.target_node_id = 1 := by
          have : d e.target_node_id - 1 = 0 := by simpa using hz
          omega
        have htfresh : e.target_node_id ∉ o ++ u :: q := h.noTgt e (List.mem_cons_self _ _)
        -- `degCount o t` equals the number of already-processed edges into `t`
        have hcount : (degCount edges srcOK o e.target_node_id : Int)
            = ((pre ++ [e]).countP (fun x => x.target_node_id == e.target_node_id) : Int) := by
          have h1 := hpre_deg e.target_node_id hn
          rw [countP_snoc_self pre e]
          push_cast
          omega
        have hsubpe : List.Sublist (pre ++ [e]) (buildOutgoing edges u) := by
          have hsplit : (pre ++ [e]) ++ rest = buildOutgoing edges u := by simpa using hpre_eq
          rw [← hsplit]
          exact List.sublist_append_left _ _
        have hpe_sub_B : List.Sublist
            ((pre ++ [e]).filter (fun x => x.target_node_id == e.target_node_id))
            (edges.filter (fun x =>
              x.target_node_id == e.target_node_id && x.source_node_id == u)) := by
          rw [← outgoing_filter_tgt]
          exact List.Sublist.filter _ hsubpe
        have hB_sub_C := filter_out_sub_deg edges srcOK o u e.target_node_id huok huno
        have hlenA : (pre ++ [e]).countP (fun x => x.target_node_id == e.target_node_id)
            = ((pre ++ [e]).filter (fun x => x.target_node_id == e.target_node_id)).length := by
          rw [List.countP_eq_length_filter]
        have hlenC : degCount edges srcOK o e.target_node_id
            = (edges.filter (degPred srcOK o e.target_node_id)).length := by
          rw [degCount_eq_countP, List.countP_eq_length_filter]
        have hACeq : ((pre ++ [e]).filter (fun x => x.target_node_id == e.target_node_id)).length
            = (edges.filter (degPred srcOK o e.target_node_id)).length := by
          have := hcount
          omega
        have hBCeq : edges.filter (fun x =>
              x.target_node_id == e.target_node_id && x.source_node_id == u)
            = edges.filter (degPred srcOK o e.target_node_id) := by
          apply hB_sub_C.eq_of_length_le
          calc (edges.filter (degPred srcOK o e.target_node_id)).length
              = ((pre ++ [e]).filter (fun x => x.target_node_id == e.target_node_id)).length :=
                hACeq.symm
            _ ≤ (edges.filter (fun x =>
                  x.target_node_id == e.target_node_id && x.source_node_id == u)).length :=
                hpe_sub_B.length_le
        -- no remaining edge of `rest` targets `t`
        have hrest_no_t : ∀ x ∈ rest, (x.target_node_id == e.target_node_id) = false := by
          have hsplit : (pre ++ [e]) ++ rest = buildOutgoing edges u := by simpa using hpre_eq
          have hout_sub : List.Sublist
              ((buildOutgoing edges u).filter (fun x => x.target_node_id == e.target_node_id))
              (edges.filter (degPred srcOK o e.target_node_id)) := by
            rw [outgoing_filter_tgt]
            exact hB_sub_C
          have hout_len := hout_sub.length_le
          rw [← hsplit, List.filter_append, List.length_append] at hout_len
          have hz2 : (rest.filter (fun x => x.target_node_id == e.target_node_id)).length = 0 := by
            omega
          rw [List.length_eq_zero] at hz2
          intro x hx
          by_contra hxx
          have hmem : x ∈ rest.filter (fun x => x.target_node_id == e.target_node_id) := by
            rw [List.mem_filter]
            exact ⟨hx, by simpa using hxx⟩
          simp [hz2] at hmem
        -- every pending in-edge of `t` comes from `u`
        have hsrct : srcsDone edges srcOK (o ++ [u]) e.target_node_id := by
          intro e' he' htgt hok
          by_cases hmem : e'.source_node_id ∈ o
          · exact List.mem_append_left _ hmem
          · have hC : e' ∈ edges.filter (degPred srcOK o e.target_node_id) := by
              rw [List.mem_filter]
              refine ⟨he', ?_⟩
              simp [degPred, htgt, hok, List.elem_eq_mem, hmem]
            rw [← hBCeq, List.mem_filter] at hC
            have hC2 := hC.2
            simp only [Bool.and_eq_true, beq_iff_eq] at hC2
            rw [hC2.2]
            simp
        apply ih
        refine {
          hpre := ⟨pre ++ [e], by simpa using hpre_eq, ?_⟩
          nodup := ?_, mem := ?_, zero := ?_, noTgt := ?_
          srcq := ?_, srco := h.srco, srcu := h.srcu, newz := ?_ }
        · intro v hv
          by_cases hvt : v = e.target_node_id
          · subst hvt
            exact hpre_t hv
          · exact hpre' v hv hvt
        · have hre : o ++ u :: (q ++ [e.target_node_id]) = (o ++ u :: q) ++ [e.target_node_id] := by
            simp
          rw [hre, List.nodup_append]
          refine ⟨h.nodup, List.nodup_singleton _, ?_⟩
          intro a ha hb
          simp only [List.mem_singleton] at hb
          subst hb
          exact htfresh ha
        · intro v hv
          have hv2 : v ∈ (o ++ u :: q) ++ [e.target_node_id] := by simpa using hv
          rcases List.mem_append.mp hv2 with hv3 | hv3
          · exact h.mem v hv3
          · simp only [List.mem_singleton] at hv3
            subst hv3
            exact hn
        · intro v hv
          have hv2 : v ∈ (o ++ u :: q) ++ [e.target_node_id] := by simpa using hv
          rcases List.mem_append.mp hv2 with hv3 | hv3
          · have hvne : v ≠ e.target_node_id := fun hh => htfresh (hh ▸ hv3)
            rw [hd2 v hvne]
            exact h.zero v hv3
          · simp only [List.mem_singleton] at hv3
            subst hv3
            simp only [beq_self_eq_true, if_true]
            omega
        · intro e' he' hmem
          have hno := h.noTgt e' (List.mem_cons_of_mem _ he')
          have hv2 : e'.target_node_id ∈ (o ++ u :: q) ++ [e.target_node_id] := by simpa using hmem
          rcases List.mem_append.mp hv2 with hv3 | hv3
          · exact hno hv3
          · simp only [List.mem_singleton] at hv3
            have := hrest_no_t e' he'
            simp [hv3] at this
        · intro v hv
          rcases List.mem_append.mp hv with hv2 | hv2
          · exact h.srcq v hv2
          · simp only [List.mem_singleton] at hv2
            subst hv2
            exact hsrct
        · intro v hvn hvs hvz
          by_cases hvt : v = e.target_node_id
          · subst hvt
            simp
          · rw [hd2 v hvt] at hvz
            have hm := h.newz v hvn hvs hvz
            rcases List.mem_append.mp hm with hv2 | hv2
            · exact List.mem_append_left _ hv2
            · rcases List.mem_cons.mp hv2 with hv3 | hv3
              · subst hv3; simp
              · simp [hv3]
      · -- decrement without enqueue
        have step : relaxEdges isNode (e :: rest) d q
            = relaxEdges isNode rest
                (fun x => if x == e.target_node_id then d x - 1 else d x) q := by
          simp only [relaxEdges]
          rw [if_pos hn]
          simp only [beq_self_eq_true, if_true, hz, Bool.false_eq_true, if_false]
        rw [step]
        have htno : e.target_node_id ∉ o ++ u :: q := h.noTgt e (List.mem_cons_self _ _)
        apply ih
        refine {
          hpre := ⟨pre ++ [e], by simpa using hpre_eq, ?_⟩
          nodup := h.nodup, mem := h.mem, zero := ?_, noTgt := ?_
          srcq := ?_, srco := h.srco, srcu := h.srcu, newz := ?_ }
        · intro v hv
          by_cases hvt : v = e.target_node_id
          · subst hvt
            exact hpre_t hv
          · exact hpre' v hv hvt
        · intro v hv
          have hvne : v ≠ e.target_node_id := fun hh => htno (hh ▸ hv)
          rw [hd2 v hvne]
          exact h.zero v hv
        · exact fun e' he' => h.noTgt e' (List.mem_cons_of_mem _ he')
        · exact h.srcq
        · intro v hvn hvs hvz
          by_cases hvt : v = e.target_node_id
          · exfalso
            subst hvt
            simp only [beq_self_eq_true, if_true] at hvz
            simp [hvz] at hz
          · rw [hd2 v hvt] at hvz
            exact h.newz v hvn hvs hvz
    · -- target not a node: nothing changes
      have step : relaxEdges isNode (e :: rest) d q = relaxEdges isNode rest d q := by
        simp only [relaxEdges]
        rw [if_neg hn]
      rw [step]
      apply ih
      refine {
        hpre := ⟨pre ++ [e], by simpa using hpre_eq, ?_⟩
        nodup := h.nodup, mem := h.mem, zero := h.zero
        noTgt := fun e' he' => h.noTgt e' (List.mem_cons_of_mem _ he')
        srcq := h.srcq, srco := h.srco, srcu := h.srcu, newz := h.newz }
      intro v hv
      have hne : (e.target_node_id == v) = false := by
        by_contra hc
        simp only [Bool.not_eq_false, beq_iff_eq] at hc
        rw [hc] at hn
        exact hn hv
      rw [countP_snoc_eq pre e v hne]
      exact hpre_deg v hv

end TestFlowRunner

namespace TestFlowRunner

/-- When the edge sweep for `u` is finished, appending `u` to the order
restores the main invariant. -/
theorem relaxInv_to_kahnInv (edges : List TestFlowEdge) (isNode srcOK seedOK : String → Bool)
    (hSrc : ∀ v, isNode v = true → srcOK v = true) (u : String) (o : List String)
    (d : String → Int) (q : List String)
    (h : RelaxInv edges isNode srcOK seedOK u o [] d q) :
    KahnInv edges isNode srcOK seedOK (o ++ [u]) q d := by
  obtain ⟨pre, hpre_eq, hpre_deg⟩ := h.hpre
  have hpre2 : pre = buildOutgoing edges u := by simpa using hpre_eq
  subst hpre2
  have hre : o ++ u :: q = (o ++ [u]) ++ q := by simp
  have hunode : isNode u = true := h.mem u (by simp)
  have huok := hSrc u hunode
  have huno : u ∉ o := by
    have hnd := h.nodup
    rw [List.nodup_append] at hnd
    exact fun ho => hnd.2.2 ho (List.mem_cons_self _ _)
  refine {
    nodup := by rw [← hre]; exact h.nodup
    mem := fun v hv => h.mem v (by rw [hre]; exact hv)
    deg := ?_
    zero := fun v hv => h.zero v (by rw [hre]; exact hv)
    srcq := h.srcq
    srco := ?_
    newz := fun v h1 h2 h3 => by
      have hm := h.newz v h1 h2 h3
      rw [hre] at hm
      exact hm }
  · intro v hv
    have h1 := hpre_deg v hv
    have h2 := degCount_snoc edges srcOK o u v huok huno
    push_cast [h2] at h1 ⊢
    omega
  · intro i hi
    by_cases hlt : i < o.length
    · have hs := h.srco i hlt
      have hget : (o ++ [u]).get ⟨i, hi⟩ = o.get ⟨i, hlt⟩ := by
        rw [List.get_append i hlt]
      have htake : (o ++ [u]).take i = o.take i := by
        rw [List.take_append_eq_append_take]
        have : i - o.length = 0 := by omega
        simp [this]
      rw [hget, htake]
      exact hs
    · have hieq : i = o.length := by
        have := hi
        simp only [List.length_append, List.length_singleton] at this
        omega
      subst hieq
      have hget : (o ++ [u]).get ⟨o.length, hi⟩ = u := by
        simp
      have htake : (o ++ [u]).take o.length = o := List.take_left o [u]
      rw [hget, htake]
      exact h.srcu

/-- Dequeuing the queue head `u` establishes the relax invariant with all
of `u`'s out-edges pending. -/
theorem kahnInv_to_relaxInv (edges : List TestFlowEdge) (isNode srcOK seedOK : String → Bool)
    (hSrc : ∀ v, isNode v = true → srcOK v = true) (u : String) (o rest : List String)
    (d : String → Int)
    (h : KahnInv edges isNode srcOK seedOK o (u :: rest) d) :
    RelaxInv edges isNode srcOK seedOK u o (buildOutgoing edges u) d rest := by
  have hunode : isNode u = true := h.mem u (by simp)
  have huok := hSrc u hunode
  have huno : u ∉ o := by
    have hnd := h.nodup
    rw [List.nodup_append] at hnd
    exact fun ho => hnd.2.2 ho (List.mem_cons_self _ _)
  refine {
    hpre := ⟨[], by simp, fun v hv => by simpa using h.deg v hv⟩
    nodup := h.nodup
    mem := h.mem
    zero := h.zero
    noTgt := ?_
    srcq := fun v hv => srcsDone_mono edges srcOK
      (by intro x hx; simp [hx]) (h.srcq v (by simp [hv]))
    srco := h.srco
    srcu := h.srcq u (by simp)
    newz := h.newz }
  intro e he hmem
  have he_edges : e ∈ edges := List.mem_of_mem_filter he
  have hsrc_u : e.source_node_id = u := by
    have h2 : e ∈ edges.filter (fun x => x.source_node_id == u) := he
    rw [List.mem_filter] at h2
    simpa using h2.2
  rcases List.mem_append.mp hmem with hv | hv
  · obtain ⟨⟨i, hilen⟩, hig⟩ := List.mem_iff_get.mp hv
    have hs := h.srco i hilen
    have hsrcmem : e.source_node_id ∈ o.take i :=
      hs e he_edges (by rw [hig]) (by rw [hsrc_u]; exact huok)
    have : e.source_node_id ∈ o := List.take_subset i o hsrcmem
    rw [hsrc_u] at this
    exact huno this
  · have hsd : srcsDone edges srcOK o e.target_node_id := h.srcq _ hv
    have hsrcmem : e.source_node_id ∈ o :=
      hsd e he_edges rfl (by rw [hsrc_u]; exact huok)
    rw [hsrc_u] at hsrcmem
    exact huno hsrcmem

/-- The Kahn loop, started in the invariant with fuel covering every node
that could still be emitted, drains the queue and preserves the invariant. -/
theorem kahnLoop_inv (edges : List TestFlowEdge) (isNode srcOK seedOK : String → Bool)
    (hSrc : ∀ v, isNode v = true → srcOK v = true)
    (N : Nat) (hN : ∀ l : List String, l.Nodup → (∀ v ∈ l, isNode v = true) → l.length ≤ N) :
    ∀ fuel o q d, KahnInv edges isNode srcOK seedOK o q d →
      N ≤ fuel + o.length →
      KahnInv edges isNode srcOK seedOK
        (kahnLoop (buildOutgoing edges) isNode fuel q d o).1 []
        (kahnLoop (buildOutgoing edges) isNode fuel q d o).2 := by
  intro fuel
  induction fuel with
  | zero =>
    intro o q d h hf
    have hq : q = [] := by
      have hlen := hN (o ++ q) h.nodup h.mem
      rw [List.length_append] at hlen
      have : q.length = 0 := by omega
      exact List.length_eq_zero.mp this
    subst hq
    simpa only [kahnLoop] using h
  | succ fuel ih =>
    intro o q d h hf
    match q with
    | [] => simpa only [kahnLoop] using h
    | u :: rest =>
      have hrel := relaxEdges_inv edges isNode srcOK seedOK hSrc u o
        (buildOutgoing edges u) d rest
        (kahnInv_to_relaxInv edges isNode srcOK seedOK hSrc u o rest d h)
      have hk := relaxInv_to_kahnInv edges isNode srcOK seedOK hSrc u o _ _ hrel
      have step : kahnLoop (buildOutgoing edges) isNode (fuel + 1) (u :: rest) d o
          = kahnLoop (buildOutgoing edges) isNode fuel
              (relaxEdges isNode (buildOutgoing edges u) d rest).2
              (relaxEdges isNode (buildOutgoing edges u) d rest).1 (o ++ [u]) := by
        simp only [kahnLoop]
      rw [step]
      apply ih _ _ _ hk
      simp only [List.length_append, List.length_singleton]
      omega

end TestFlowRunner

namespace TestFlowRunner

/-- The `isNode` test of `_topological_sort` (`target in in_degree`). -/
def sortIsNode (nodes : List TestFlowNode) : String → Bool :=
  fun s => nodes.any (fun n => n.id == s)

/-- The initial in-degree table of `_topological_sort`. -/
def sortInDeg (edges : List TestFlowEdge) : String → Int :=
  fun nid => ((buildIncoming edges nid).length : Int)

/-- The seeded queue of `_topological_sort`: zero-in-degree non-group
nodes, in node order. -/
def sortSeeds (nodes : List TestFlowNode) (edges : List TestFlowEdge) : List String :=
  (nodes.filter (fun n => sortInDeg edges n.id == 0 && n.node_type != "group")).map (·.id)

/-- The raw Kahn output of `_topological_sort` (order and final table). -/
def sortKahn (nodes : List TestFlowNode) (edges : List TestFlowEdge) :
    List String × (String → Int) :=
  kahnLoop (buildOutgoing edges) (sortIsNode nodes) nodes.length
    (sortSeeds nodes edges) (sortInDeg edges) []

theorem topological_sort_eq (nodes : List TestFlowNode) (edges : List TestFlowEdge) :
    topological_sort nodes edges =
      (if ((nodes.filter (fun n =>
            n.node_type != "group" && !((sortKahn nodes edges).1.contains n.id))).map (·.id)).isEmpty
       then Except.ok (sortKahn nodes edges).1
       else Except.error ("Cycle detected in test flow involving nodes: " ++
         String.intercalate ", "
           (((nodes.filter (fun n =>
              n.node_type != "group" && !((sortKahn nodes edges).1.contains n.id))).map (·.id)).map
             (labelOrId nodes)))) := rfl

theorem degCount_nil_true (edges : List TestFlowEdge) (v : String) :
    degCount edges (fun _ => true) [] v = (buildIncoming edges v).length := by
  unfold degCount buildIncoming
  rw [List.countP_eq_length_filter]
  congr 1
  apply List.filter_congr
  intro e _
  simp [List.elem_eq_mem]

theorem nodup_subset_length_le {l L : List String} (h : l.Nodup) (hs : ∀ x ∈ l, x ∈ L) :
    l.length ≤ L.length := by
  classical
  calc l.length = l.toFinset.card := (List.toFinset_card_of_nodup h).symm
    _ ≤ L.toFinset.card := Finset.card_le_card (fun x hx => by
        simp only [List.mem_toFinset] at hx ⊢
        exact hs x hx)
    _ ≤ L.length := L.toFinset_card_le

/-- The invariant holds at the start of `_topological_sort`'s loop. -/
theorem sort_initial_inv (nodes : List TestFlowNode) (edges : List TestFlowEdge)
    (hids : (nodes.map (·.id)).Nodup) :
    KahnInv edges (sortIsNode nodes) (fun _ => true) (isNonGroupId nodes)
      [] (sortSeeds nodes edges) (sortInDeg edges) := by
  have hseeds_zero : ∀ v ∈ sortSeeds nodes edges, sortInDeg edges v = 0 := by
    intro v hv
    unfold sortSeeds at hv
    rw [List.mem_map] at hv
    obtain ⟨n, hn, hid⟩ := hv
    rw [List.mem_filter] at hn
    have := hn.2
    simp only [Bool.and_eq_true, beq_iff_eq] at this
    rw [← hid]
    exact this.1
  refine {
    nodup := ?_, mem := ?_, deg := ?_, zero := ?_, srcq := ?_, srco := ?_, newz := ?_ }
  · simp only [List.nil_append]
    unfold sortSeeds
    have hsub : List.Sublist
        ((nodes.filter (fun n => sortInDeg edges n.id == 0 && n.node_type != "group")).map (·.id))
        (nodes.map (·.id)) :=
      List.Sublist.map _ (List.filter_sublist nodes)
    exact hids.sublist hsub
  · intro v hv
    simp only [List.nil_append] at hv
    unfold sortSeeds at hv
    rw [List.mem_map] at hv
    obtain ⟨n, hn, hid⟩ := hv
    unfold sortIsNode
    rw [List.any_eq_true]
    exact ⟨n, List.mem_of_mem_filter hn, by simp [hid]⟩
  · intro v _
    unfold sortInDeg
    rw [degCount_nil_true]
  · intro v hv
    simp only [List.nil_append] at hv
    exact hseeds_zero v hv
  · intro v hv
    have hz := hseeds_zero v hv
    have : degCount edges (fun _ => true) [] v = 0 := by
      rw [degCount_nil_true]
      unfold sortInDeg at hz
      omega
    exact (degCount_eq_zero_iff edges (fun _ => true) [] v).mp this
  · intro i hi
    simp at hi
  · intro v hvn hvs hvz
    simp only [List.nil_append]
    unfold isNonGroupId at hvs
    rw [List.any_eq_true] at hvs
    obtain ⟨n, hn, hprop⟩ := hvs
    simp only [Bool.and_eq_true, beq_iff_eq] at hprop
    unfold sortSeeds
    rw [List.mem_map]
    refine ⟨n, ?_, hprop.1⟩
    rw [List.mem_filter]
    refine ⟨hn, ?_⟩
    simp only [Bool.and_eq_true, beq_iff_eq]
    refine ⟨?_, by simpa using hprop.2⟩
    rw [hprop.1]
    exact hvz

/-- The invariant at the end of `_topological_sort`'s loop. -/
theorem sort_final_inv (nodes : List TestFlowNode) (edges : List TestFlowEdge)
    (hids : (nodes.map (·.id)).Nodup) :
    KahnInv edges (sortIsNode nodes) (fun _ => true) (isNonGroupId nodes)
      (sortKahn nodes edges).1 [] (sortKahn nodes edges).2 := by
  have hN : ∀ l : List String, l.Nodup → (∀ v ∈ l, sortIsNode nodes v = true) →
      l.length ≤ nodes.length := by
    intro l hl hm
    have hsub : ∀ x ∈ l, x ∈ nodes.map (·.id) := by
      intro x hx
      have := hm x hx
      unfold sortIsNode at this
      rw [List.any_eq_true] at this
      obtain ⟨n, hn, hid⟩ := this
      rw [List.mem_map]
      exact ⟨n, hn, by simpa using hid⟩
    calc l.length ≤ (nodes.map (·.id)).length := nodup_subset_length_le hl hsub
      _ = nodes.length := List.length_map _ _
  exact kahnLoop_inv edges (sortIsNode nodes) (fun _ => true) (isNonGroupId nodes)
    (fun _ _ => rfl) nodes.length hN nodes.length [] (sortSeeds nodes edges)
    (sortInDeg edges) (sort_initial_inv nodes edges hids) (by simp)

end TestFlowRunner

namespace TestFlowRunner

theorem getLastD_mem (c : List String) (hne : c ≠ []) : c.getLastD "" ∈ c := by
  rw [List.getLastD_eq_getLast?, List.getLast?_eq_getLast c hne]
  simp only [Option.getD_some]
  exact List.getLast_mem _

/-- Every element of a cycle has a predecessor in the cycle. -/
theorem cycle_pred (edges : List TestFlowEdge) (c : List String) (hc : IsCycle edges c) :
    ∀ v ∈ c, ∃ u ∈ c, edgeRel edges u v := by
  obtain ⟨hne, hchain, hwrap⟩ := hc
  intro v hv
  obtain ⟨⟨i, hi⟩, hig⟩ := List.mem_iff_get.mp hv
  match i, hi, hig with
  | 0, hi, hig =>
    refine ⟨c.getLastD "", getLastD_mem c hne, ?_⟩
    have hhead : c.headD "" = v := by
      match c, hne, hi, hig with
      | x :: xs, _, _, hig => simpa using hig
    rw [hhead] at hwrap
    exact hwrap
  | j + 1, hi, hig =>
    have hedge := List.chain'_iff_get.mp hchain j (by omega)
    refine ⟨c.get ⟨j, by omega⟩, List.get_mem c _ _, ?_⟩
    rw [← hig]
    exact hedge

/-- No element of a cycle can appear in an order whose every entry has all
its edge sources strictly earlier. -/
theorem order_excludes_cycle (edges : List TestFlowEdge) (L : List String)
    (hsrc : ∀ i (h : i < L.length), srcsDone edges (fun _ => true) (L.take i) (L.get ⟨i, h⟩))
    (c : List String) (hc : IsCycle edges c) : ∀ v ∈ c, v ∉ L := by
  have main : ∀ i (h : i < L.length), L.get ⟨i, h⟩ ∉ c := by
    intro i
    induction i using Nat.strong_induction_on with
    | _ i ih =>
      intro hi hvc
      obtain ⟨u, huc, hedge⟩ := cycle_pred edges c hc _ hvc
      obtain ⟨e, he, hes, het⟩ := hedge
      have humem : e.source_node_id ∈ L.take i := hsrc i hi e he het rfl
      obtain ⟨j, hjlt, hjget⟩ := List.mem_take_iff_getElem.mp humem
      have hjL : j < L.length := by
        have := hjlt
        omega
      have hjlt2 : j < i := by
        have h2 := hjlt
        have h3 : j < min i L.length := by omega
        omega
      apply ih j hjlt2 hjL
      have : L.get ⟨j, hjL⟩ = u := by
        rw [← hes]
        simpa using hjget
      rw [this]
      exact huc
  intro v hv hvL
  obtain ⟨⟨i, hi⟩, hig⟩ := List.mem_iff_get.mp hvL
  exact main i hi (hig ▸ hv)

/-- Queue additions during a relax sweep are targets of the processed
edges. -/
theorem relaxEdges_queue_targets (isNode : String → Bool) :
    ∀ es d q, ∃ ts, (relaxEdges isNode es d q).2 = q ++ ts
      ∧ ∀ t ∈ ts, ∃ e ∈ es, e.target_node_id = t := by
  intro es
  induction es with
  | nil => intro d q; exact ⟨[], by simp [relaxEdges], by simp⟩
  | cons e rest ih =>
    intro d q
    simp only [relaxEdges]
    by_cases hn : isNode e.target_node_id
    · rw [if_pos hn]
      by_cases hz : ((fun x => if x == e.target_node_id then d x - 1 else d x) e.target_node_id == 0) = true
      · rw [if_pos hz]
        obtain ⟨ts, hts, hall⟩ := ih (fun x => if x == e.target_node_id then d x - 1 else d x)
          (q ++ [e.target_node_id])
        refine ⟨e.target_node_id :: ts, by simpa using hts, ?_⟩
        intro t ht
        rcases List.mem_cons.mp ht with rfl | ht
        · exact ⟨e, List.mem_cons_self _ _, rfl⟩
        · obtain ⟨e', he', het⟩ := hall t ht
          exact ⟨e', List.mem_cons_of_mem _ he', het⟩
      · rw [if_neg hz]
        obtain ⟨ts, hts, hall⟩ := ih (fun x => if x == e.target_node_id then d x - 1 else d x) q
        refine ⟨ts, hts, ?_⟩
        intro t ht
        obtain ⟨e', he', het⟩ := hall t ht
        exact ⟨e', List.mem_cons_of_mem _ he', het⟩
    · rw [if_neg hn]
      obtain ⟨ts, hts, hall⟩ := ih d q
      refine ⟨ts, hts, ?_⟩
      intro t ht
      obtain ⟨e', he', het⟩ := hall t ht
      exact ⟨e', List.mem_cons_of_mem _ he', het⟩

/-- Everything the Kahn loop emits came from the initial order, the initial
queue, or is the target of some edge. -/
theorem kahnLoop_mem_target (out : String → List TestFlowEdge) (isNode : String → Bool)
    (edges : List TestFlowEdge) (hout : ∀ u, ∀ e ∈ out u, e ∈ edges) :
    ∀ fuel q d o x, x ∈ (kahnLoop out isNode fuel q d o).1 →
      x ∈ o ∨ x ∈ q ∨ ∃ e ∈ edges, e.target_node_id = x := by
  intro fuel
  induction fuel with
  | zero => intro q d o x hx; exact Or.inl hx
  | succ fuel ih =>
    intro q d o x hx
    match q with
    | [] => exact Or.inl hx
    | nid :: rest =>
      simp only [kahnLoop] at hx
      rcases ih _ _ _ x hx with h | h | h
      · rcases List.mem_append.mp h with h | h
        · exact Or.inl h
        · simp only [List.mem_singleton] at h
          subst h
          exact Or.inr (Or.inl (List.mem_cons_self _ _))
      · obtain ⟨ts, hts, hall⟩ := relaxEdges_queue_targets isNode (out nid) d rest
        rw [hts] at h
        rcases List.mem_append.mp h with h | h
        · exact Or.inr (Or.inl (List.mem_cons_of_mem _ h))
        · obtain ⟨e, he, het⟩ := hall x h
          exact Or.inr (Or.inr ⟨e, hout nid e he, het⟩)
      · exact Or.inr (Or.inr h)

end TestFlowRunner

namespace TestFlowRunner

theorem headD_eq_get (c : List String) (hne : c ≠ []) (h0 : 0 < c.length) :
    c.headD "" = c.get ⟨0, h0⟩ := by
  cases c with
  | nil => exact absurd rfl hne
  | cons x xs => rfl

theorem getLastD_eq_get (c : List String) (hne : c ≠ []) (hl : c.length - 1 < c.length) :
    c.getLastD "" = c.get ⟨c.length - 1, hl⟩ := by
  rw [List.getLastD_eq_getLast?, List.getLast?_eq_getLast c hne]
  simp only [Option.getD_some]
  rw [List.getLast_eq_get]

/-- A repeated element of a backwards edge walk yields a cycle through the
walk's elements. -/
theorem sort_cycle_of_repeat (nodes : List TestFlowNode) (edges : List TestFlowEdge)
    (seq : Nat → String)
    (hseqU : ∀ n, isNonGroupId nodes (seq n) = true ∧ seq n ∉ (sortKahn nodes edges).1)
    (hseqE : ∀ n, edgeRel edges (seq (n + 1)) (seq n))
    (a b : Nat) (hab : a < b) (heq : seq a = seq b) :
    ∃ c, IsCycle edges c ∧ ∀ v ∈ c, isNonGroupId nodes v = true := by
  set c : List String := (List.range (b - a)).map (fun k => seq (b - 1 - k)) with hc_def
  have hlen : c.length = b - a := by simp [hc_def]
  have hpos : 0 < c.length := by omega
  have hne : c ≠ [] := List.ne_nil_of_length_pos hpos
  have hget : ∀ k (h : k < c.length), c.get ⟨k, h⟩ = seq (b - 1 - k) := by
    intro k h
    simp [hc_def]
  refine ⟨c, ⟨hne, ?_, ?_⟩, ?_⟩
  · rw [List.chain'_iff_get]
    intro i hi
    rw [hget i (by omega), hget (i + 1) (by omega)]
    have h1 : b - 1 - i = (b - 1 - (i + 1)) + 1 := by omega
    rw [h1]
    exact hseqE _
  · rw [getLastD_eq_get c hne (by omega), headD_eq_get c hne hpos]
    rw [hget _ (by omega), hget 0 hpos]
    have h1 : b - 1 - (c.length - 1) = a := by omega
    have h2 : b - 1 - 0 = b - 1 := by omega
    rw [h1, h2, heq]
    have h3 : b = (b - 1) + 1 := by omega
    rw [h3]
    exact hseqE _
  · intro v hv
    rw [hc_def, List.mem_map] at hv
    obtain ⟨k, _, hk⟩ := hv
    rw [← hk]
    exact (hseqU _).1

/-- If a non-group node is never emitted by Kahn's loop although all edge
sources are non-group node ids, the edge list contains a cycle through
non-group node ids.  (This is the contrapositive of completeness: on a DAG
every non-group node is emitted.) -/
theorem sort_incomplete_has_cycle (nodes : List TestFlowNode) (edges : List TestFlowEdge)
    (hids : (nodes.map (·.id)).Nodup)
    (hends : ∀ e ∈ edges, isNonGroupId nodes e.source_node_id = true)
    (v₀ : String) (hv₀n : isNonGroupId nodes v₀ = true)
    (hv₀ : v₀ ∉ (sortKahn nodes edges).1) :
    ∃ c, IsCycle edges c ∧ ∀ v ∈ c, isNonGroupId nodes v = true := by
  classical
  have hinv := sort_final_inv nodes edges hids
  have hng_node : ∀ v, isNonGroupId nodes v = true → sortIsNode nodes v = true := by
    intro v hv
    unfold isNonGroupId at hv
    unfold sortIsNode
    rw [List.any_eq_true] at hv ⊢
    obtain ⟨n, hn, hp⟩ := hv
    simp only [Bool.and_eq_true] at hp
    exact ⟨n, hn, hp.1⟩
  have hstep : ∀ v, isNonGroupId nodes v = true ∧ v ∉ (sortKahn nodes edges).1 →
      ∃ w, (isNonGroupId nodes w = true ∧ w ∉ (sortKahn nodes edges).1)
        ∧ edgeRel edges w v := by
    intro v hv
    obtain ⟨hvn, hvL⟩ := hv
    have hnode := hng_node v hvn
    have hdz : (sortKahn nodes edges).2 v ≠ 0 := by
      intro h0
      exact hvL (by simpa using hinv.newz v hnode hvn h0)
    have hdc : degCount edges (fun _ => true) (sortKahn nodes edges).1 v ≠ 0 := by
      intro h0
      apply hdz
      rw [hinv.deg v hnode, h0]
      simp
    rw [Ne, degCount, List.countP_eq_zero] at hdc
    push_neg at hdc
    obtain ⟨e, he, hpe⟩ := hdc
    simp only [Bool.and_eq_true, beq_iff_eq, Bool.not_eq_true', List.elem_eq_mem,
      decide_eq_false_iff_not] at hpe
    exact ⟨e.source_node_id, ⟨hends e he, hpe.2⟩, ⟨e, he, rfl, hpe.1.1⟩⟩
  choose! f hf using hstep
  have hfU := fun v h => (hf v h).1
  have hfE := fun v h => (hf v h).2
  set seq : Nat → String := fun n => f^[n] v₀ with hseq_def
  have hseqU : ∀ n, isNonGroupId nodes (seq n) = true ∧ seq n ∉ (sortKahn nodes edges).1 := by
    intro n
    induction n with
    | zero => exact ⟨hv₀n, hv₀⟩
    | succ n ihn =>
      have hsn : seq (n + 1) = f (seq n) := Function.iterate_succ_apply' f n v₀
      rw [hsn]
      exact hfU (seq n) ihn
  have hseqE : ∀ n, edgeRel edges (seq (n + 1)) (seq n) := by
    intro n
    have hsn : seq (n + 1) = f (seq n) := Function.iterate_succ_apply' f n v₀
    rw [hsn]
    exact hfE (seq n) (hseqU n)
  -- pigeonhole over node ids
  have hmaps : ∀ n ∈ Finset.range ((nodes.map (·.id)).toFinset.card + 1),
      seq n ∈ (nodes.map (·.id)).toFinset := by
    intro n _
    have := (hseqU n).1
    unfold isNonGroupId at this
    rw [List.any_eq_true] at this
    obtain ⟨nd, hnd, hp⟩ := this
    simp only [Bool.and_eq_true, beq_iff_eq] at hp
    rw [List.mem_toFinset, List.mem_map]
    exact ⟨nd, hnd, hp.1⟩
  obtain ⟨a, ha, b, hb, hab, heq⟩ :=
    Finset.exists_ne_map_eq_of_card_lt_of_maps_to
      (by simp [Finset.card_range]) hmaps
  -- order the repeated indices
  rcases Nat.lt_or_ge a b with hlt | hge
  case _ =>
    exact sort_cycle_of_repeat nodes edges seq hseqU hseqE a b hlt heq
  case _ =>
    have hlt2 : b < a := by omega
    exact sort_cycle_of_repeat nodes edges seq hseqU hseqE b a hlt2 heq.symm

end TestFlowRunner

namespace TestFlowRunner

/-! ## C1: `_topological_sort` correctness -/

/-- A non-group member of `nodes` satisfies `isNonGroupId`. -/
theorem isNonGroupId_of_mem (nodes : List TestFlowNode) (n : TestFlowNode)
    (hn : n ∈ nodes) (hg : (n.node_type != "group") = true) :
    isNonGroupId nodes n.id = true := by
  unfold isNonGroupId
  rw [List.any_eq_true]
  exact ⟨n, hn, by simp [hg]⟩

/-- Seeds of the Kahn queue are non-group node ids. -/
theorem sortSeeds_nonGroup (nodes : List TestFlowNode) (edges : List TestFlowEdge) :
    ∀ v ∈ sortSeeds nodes edges, isNonGroupId nodes v = true := by
  intro v hv
  unfold sortSeeds at hv
  rw [List.mem_map] at hv
  obtain ⟨n, hn, hid⟩ := hv
  rw [List.mem_filter] at hn
  have hp := hn.2
  simp only [Bool.and_eq_true] at hp
  rw [← hid]
  exact isNonGroupId_of_mem nodes n hn.1 hp.2

/-- On a DAG (no cycle through non-group ids) with non-group edge sources,
every non-group node is emitted by the Kahn loop. -/
theorem sort_complete (nodes : List TestFlowNode) (edges : List TestFlowEdge)
    (hids : (nodes.map (·.id)).Nodup)
    (hsrc : ∀ e ∈ edges, isNonGroupId nodes e.source_node_id = true)
    (hdag : ¬ ∃ c, IsCycle edges c ∧ ∀ v ∈ c, isNonGroupId nodes v = true) :
    ∀ v, isNonGroupId nodes v = true → v ∈ (sortKahn nodes edges).1 := by
  intro v hv
  by_contra hnv
  exact hdag (sort_incomplete_has_cycle nodes edges hids hsrc v hv hnv)

/-- When all edge targets are non-group ids, everything the Kahn loop emits
is a non-group id. -/
theorem sort_order_nonGroup (nodes : List TestFlowNode) (edges : List TestFlowEdge)
    (htgt : ∀ e ∈ edges, isNonGroupId nodes e.target_node_id = true) :
    ∀ v ∈ (sortKahn nodes edges).1, isNonGroupId nodes v = true := by
  intro v hv
  have h := kahnLoop_mem_target (buildOutgoing edges) (sortIsNode nodes) edges
    (fun _ e he => List.mem_of_mem_filter he) nodes.length
    (sortSeeds nodes edges) (sortInDeg edges) [] v hv
  rcases h with h | h | h
  · simp at h
  · exact sortSeeds_nonGroup nodes edges v h
  · obtain ⟨e, he, het⟩ := h
    rw [← het]
    exact htgt e he

end TestFlowRunner

namespace TestFlowRunner

/-- C1 counterexample input: an HTTP node `A` feeding a `group` node `G`. -/
def c1A : TestFlowNode := { id := "A", node_type := "http_request" }

def c1G : TestFlowNode := { id := "G", node_type := "group" }

def c1EdgeAG : TestFlowEdge :=
  { id := "eAG", source_node_id := "A", target_node_id := "G" }

/-- C1 (counterexample): with node `A` (http_request) and `G` (group) and the
single edge `A → G`, the edge list has no cycle at all — so the non-group
nodes trivially form a DAG — yet `_topological_sort` succeeds with the order
`["A", "G"]`, which contains the group node `G`: the relax step enqueues any
target present in `in_degree`, without re-checking the non-group condition,
so group nodes are not excluded from the returned order. -/
theorem topological_sort_group_in_order :
    (¬ ∃ c, IsCycle [c1EdgeAG] c ∧ ∀ v ∈ c, isNonGroupId [c1A, c1G] v = true)
      ∧ topological_sort [c1A, c1G] [c1EdgeAG] = Except.ok ["A", "G"]
      ∧ c1G ∈ [c1A, c1G] ∧ c1G.node_type = "group" ∧ "G" ∈ ["A", "G"] := by
  refine ⟨?_, rfl, by decide, rfl, by decide⟩
  rintro ⟨c, hc, -⟩
  obtain ⟨v, hv⟩ := List.exists_mem_of_ne_nil c hc.1
  obtain ⟨u, hu, e, he, hes, het⟩ := cycle_pred _ c hc v hv
  have heA : e = c1EdgeAG := by simpa using he
  subst heA
  rw [← hes] at hu
  obtain ⟨u', hu', e', he', hes', het'⟩ := cycle_pred _ c hc _ hu
  have heA' : e' = c1EdgeAG := by simpa using he'
  subst heA'
  exact absurd het' (by decide)

/-- C1 (amended): for distinct node ids, edges whose endpoints are all
non-group node ids, and no cycle (through non-group ids), `_topological_sort`
returns `ok` with an order that is duplicate-free, contains exactly the
non-group nodes, and places every edge source strictly before its target.
(Without the endpoint restriction the claim fails: a group node that is an
edge target enters the order, and an edge out of a group node can make the
sort report a spurious cycle.) -/
theorem topological_sort_correct (nodes : List TestFlowNode) (edges : List TestFlowEdge)
    (hids : (nodes.map (·.id)).Nodup)
    (hsrc : ∀ e ∈ edges, isNonGroupId nodes e.source_node_id = true)
    (htgt : ∀ e ∈ edges, isNonGroupId nodes e.target_node_id = true)
    (hdag : ¬ ∃ c, IsCycle edges c ∧ ∀ v ∈ c, isNonGroupId nodes v = true) :
    ∃ order, topological_sort nodes edges = Except.ok order
      ∧ order.Nodup
      ∧ (∀ v, v ∈ order ↔ isNonGroupId nodes v = true)
      ∧ ∀ i (h : i < order.length), ∀ e ∈ edges,
          e.target_node_id = order.get ⟨i, h⟩ → e.source_node_id ∈ order.take i := by
  have hinv := sort_final_inv nodes edges hids
  have hcomp := sort_complete nodes edges hids hsrc hdag
  have hng := sort_order_nonGroup nodes edges htgt
  refine ⟨(sortKahn nodes edges).1, ?_, ?_, ?_, ?_⟩
  · rw [topological_sort_eq]
    have hfil : nodes.filter (fun n =>
        n.node_type != "group" && !((sortKahn nodes edges).1.contains n.id)) = [] := by
      rw [List.filter_eq_nil_iff]
      intro n hn
      by_cases hg : (n.node_type != "group") = true
      · have hv : isNonGroupId nodes n.id = true := isNonGroupId_of_mem nodes n hn hg
        have hmem := hcomp n.id hv
        simp [hg, List.elem_eq_mem, hmem]
      · simp only [Bool.not_eq_true] at hg
        simp [hg]
    rw [hfil]
    simp
  · simpa using hinv.nodup
  · intro v
    exact ⟨hng v, hcomp v⟩
  · intro i h e he het
    exact hinv.srco i h e he het rfl

/-- C1 witness input: two HTTP nodes joined by a single edge. -/
def c1WA : TestFlowNode := { id := "WA", node_type := "http_request" }

def c1WB : TestFlowNode := { id := "WB", node_type := "http_request" }

def c1WEdge : TestFlowEdge :=
  { id := "we1", source_node_id := "WA", target_node_id := "WB" }

/-- C1 witness: the amended theorem applied to the concrete two-node DAG. -/
theorem topological_sort_correct_witness :
    ∃ order, topological_sort [c1WA, c1WB] [c1WEdge] = Except.ok order
      ∧ order.Nodup
      ∧ (∀ v, v ∈ order ↔ isNonGroupId [c1WA, c1WB] v = true)
      ∧ ∀ i (h : i < order.length), ∀ e ∈ [c1WEdge],
          e.target_node_id = order.get ⟨i, h⟩ → e.source_node_id ∈ order.take i :=
  topological_sort_correct [c1WA, c1WB] [c1WEdge] (by decide) (by decide) (by decide)
    (by
      rintro ⟨c, hc, -⟩
      obtain ⟨v, hv⟩ := List.exists_mem_of_ne_nil c hc.1
      obtain ⟨u, hu, e, he, hes, het⟩ := cycle_pred _ c hc v hv
      have heA : e = c1WEdge := by simpa using he
      subst heA
      rw [← hes] at hu
      obtain ⟨u', hu', e', he', hes', het'⟩ := cycle_pred _ c hc _ hu
      have heA' : e' = c1WEdge := by simpa using he'
      subst heA'
      exact absurd het' (by decide))

end TestFlowRunner

namespace TestFlowRunner

/-! ## C2: a cycle aborts the run with `error` + all-zero `done` -/

/-- Events that dispatch (or skip) a node of the main order. -/
def isDispatchEvent : Event → Bool
  | Event.node_start _ _ _ => true
  | Event.node_result _ _ => true
  | Event.node_skipped _ _ _ _ => true
  | _ => false

/-- C2: on a flow with duplicate-free node ids whose edges contain a cycle
through non-group node ids, `run_test_flow_stream` emits exactly one `error`
event immediately followed by one `done` event carrying the all-zero default
summary and empty final variables, and no node is dispatched (no
`node_start`, `node_result` or `node_skipped` event appears). -/
theorem cycle_emits_error_done (env : Env) (flow : TestFlow)
    (hids : (flow.nodes.map (·.id)).Nodup)
    (hcyc : ∃ c, IsCycle flow.edges c ∧ ∀ v ∈ c, isNonGroupId flow.nodes v = true) :
    ∃ msg, run_test_flow_stream env flow = [Event.error msg, Event.done {} []]
      ∧ ∀ ev ∈ run_test_flow_stream env flow, isDispatchEvent ev = false := by
  obtain ⟨c, hc, hcng⟩ := hcyc
  obtain ⟨v, hv⟩ := List.exists_mem_of_ne_nil c hc.1
  have hinv := sort_final_inv flow.nodes flow.edges hids
  have hnotin : v ∉ (sortKahn flow.nodes flow.edges).1 :=
    order_excludes_cycle flow.edges _ hinv.srco c hc v hv
  have hvng := hcng v hv
  unfold isNonGroupId at hvng
  rw [List.any_eq_true] at hvng
  obtain ⟨n, hn, hp⟩ := hvng
  simp only [Bool.and_eq_true, beq_iff_eq] at hp
  have hmem : n.id ∈ ((flow.nodes.filter (fun n =>
      n.node_type != "group" && !((sortKahn flow.nodes flow.edges).1.contains n.id))).map
        (·.id)) := by
    rw [List.mem_map]
    refine ⟨n, ?_, rfl⟩
    rw [List.mem_filter]
    refine ⟨hn, ?_⟩
    simp [hp.2, hp.1, List.elem_eq_mem, hnotin]
  have hne : ¬ (((flow.nodes.filter (fun n =>
      n.node_type != "group" && !((sortKahn flow.nodes flow.edges).1.contains n.id))).map
        (·.id)).isEmpty = true) := by
    rw [List.isEmpty_iff]
    exact fun habs => List.ne_nil_of_mem hmem habs
  have hsort : topological_sort flow.nodes flow.edges =
      Except.error ("Cycle detected in test flow involving nodes: " ++
        String.intercalate ", "
          (((flow.nodes.filter (fun n =>
            n.node_type != "group" && !((sortKahn flow.nodes flow.edges).1.contains n.id))).map
              (·.id)).map (labelOrId flow.nodes))) := by
    rw [topological_sort_eq, if_neg hne]
  have hrun : run_test_flow_stream env flow =
      [Event.error ("Cycle detected in test flow involving nodes: " ++
        String.intercalate ", "
          (((flow.nodes.filter (fun n =>
            n.node_type != "group" && !((sortKahn flow.nodes flow.edges).1.contains n.id))).map
              (·.id)).map (labelOrId flow.nodes))), Event.done {} []] := by
    simp only [run_test_flow_stream]
    rw [hsort]
  refine ⟨_, hrun, ?_⟩
  intro ev hev
  rw [hrun] at hev
  simp only [List.mem_cons, List.mem_singleton] at hev
  rcases hev with rfl | rfl | h
  · rfl
  · rfl
  · simp at h

/-- C2 witness input: two `delay` nodes in a two-cycle. -/
def c2X : TestFlowNode := { id := "CX", node_type := "delay" }

def c2Y : TestFlowNode := { id := "CY", node_type := "delay" }

def c2E1 : TestFlowEdge :=
  { id := "ce1", source_node_id := "CX", target_node_id := "CY" }

def c2E2 : TestFlowEdge :=
  { id := "ce2", source_node_id := "CY", target_node_id := "CX" }

def c2Flow : TestFlow :=
  { name := "cyclic", nodes := [c2X, c2Y], edges := [c2E1, c2E2] }

/-- C2 witness: the theorem applied to the concrete two-node cycle. -/
theorem cycle_emits_error_done_witness :
    ∃ msg, run_test_flow_stream trivEnv c2Flow = [Event.error msg, Event.done {} []]
      ∧ ∀ ev ∈ run_test_flow_stream trivEnv c2Flow, isDispatchEvent ev = false :=
  cycle_emits_error_done trivEnv c2Flow (by decide)
    (by
      refine ⟨["CX", "CY"], ⟨by decide, ?_, ?_⟩, by decide⟩
      · rw [List.chain'_iff_get]
        intro i hi
        have hi0 : i = 0 := by
          simp only [List.length_cons, List.length_nil] at hi
          omega
        subst hi0
        exact ⟨c2E1, by decide, rfl, rfl⟩
      · exact ⟨c2E2, by decide, rfl, rfl⟩)

end TestFlowRunner

namespace TestFlowRunner

/-! ## C5: unknown node type is a per-node error; the run continues -/

/-- The node types the main dispatch switch recognises. -/
def isKnownType (t : String) : Bool :=
  (t == "http_request" || t == "collection" || t == "script" || t == "websocket"
      || t == "graphql")
    || t == "assertion" || t == "delay" || t == "condition" || t == "set_variable"
    || t == "loop"

theorem exists_suffix_append4 {α : Type} (a b c d e : List α) :
    ∃ ts, a ++ b ++ c ++ d ++ e = a ++ ts :=
  ⟨b ++ c ++ d ++ e, by simp [List.append_assoc]⟩

/-- One main-loop step only appends to the event log. -/
theorem runNode_events_mono (env : Env) (nodes : List TestFlowNode)
    (edges : List TestFlowEdge) (st : RunState) (nid : String) :
    ∃ ts, (runNode env nodes edges st nid).events = st.events ++ ts := by
  unfold runNode
  cases hf : nodes.find? (fun n => n.id == nid) with
  | none => exact ⟨[], by simp⟩
  | some node =>
    dsimp only
    by_cases hg : (node.node_type == "group") = true
    · rw [if_pos hg]
      exact ⟨[], by simp⟩
    · rw [if_neg hg]
      by_cases hs : (st.skipped.contains nid) = true
      · rw [if_pos hs]
        exact ⟨_, rfl⟩
      · rw [if_neg hs]
        exact exists_suffix_append4 _ _ _ _ _

/-- The whole main loop only appends to the event log. -/
theorem runFold_events_mono (env : Env) (nodes : List TestFlowNode)
    (edges : List TestFlowEdge) :
    ∀ (l : List String) (st : RunState),
      ∃ ts, (l.foldl (runNode env nodes edges) st).events = st.events ++ ts := by
  intro l
  induction l with
  | nil => intro st; exact ⟨[], by simp⟩
  | cons x xs ih =>
    intro st
    obtain ⟨ts1, h1⟩ := runNode_events_mono env nodes edges st x
    obtain ⟨ts2, h2⟩ := ih (runNode env nodes edges st x)
    exact ⟨ts1 ++ ts2, by rw [List.foldl_cons, h2, h1, List.append_assoc]⟩

/-- A non-group node of the order is dispatched or skipped: its main-loop
step emits a `node_start` or a `node_skipped` event for it. -/
theorem runNode_emits (env : Env) (nodes : List TestFlowNode) (edges : List TestFlowEdge)
    (st : RunState) (nid : String) (node : TestFlowNode)
    (hfind : nodes.find? (fun n => n.id == nid) = some node)
    (hng : (node.node_type != "group") = true) :
    Event.node_start nid node.node_type node.label ∈ (runNode env nodes edges st nid).events
      ∨ Event.node_skipped nid node.node_type node.label "branch_not_taken"
          ∈ (runNode env nodes edges st nid).events := by
  unfold runNode
  rw [hfind]
  dsimp only
  have hg : (node.node_type == "group") = false := by
    simp only [bne_iff_ne, ne_eq] at hng
    simp [hng]
  simp only [hg, Bool.false_eq_true, if_false]
  by_cases hs : (st.skipped.contains nid) = true
  · rw [if_pos hs]
    right
    simp
  · rw [if_neg hs]
    left
    simp

/-- C5: an unknown `node_type` is a node-time error, not a build error: the
dispatch switch converts it into a NodeResult with status `"error"` and the
message `Unknown node type: <t>`; independently of any node failure, every
non-group node of the precomputed order still gets a `node_start` (or, if
marked, a `node_skipped`) event, and the run still ends with a `done`
event. -/
theorem unknown_node_error_run_continues (env : Env) (flow : TestFlow)
    (order : List String) (nid : String) (node : TestFlowNode)
    (hord : topological_sort flow.nodes flow.edges = Except.ok order)
    (hmem : nid ∈ order)
    (hfind : flow.nodes.find? (fun n => n.id == nid) = some node)
    (hng : (node.node_type != "group") = true) :
    (isKnownType node.node_type = false →
      ∀ vars results skipped calls,
        (dispatchMain env flow.nodes flow.edges node vars results skipped calls).result.status
            = "error"
          ∧ (dispatchMain env flow.nodes flow.edges node vars results skipped calls).result.error
            = some ("Unknown node type: " ++ node.node_type))
      ∧ (∀ vars results skipped calls e,
          (node.node_type == "http_request") = true →
          env.exec calls node.node_type node.config vars = Except.error e →
          (dispatchMain env flow.nodes flow.edges node vars results skipped calls).result
            = { status := "error", error := some e })
      ∧ (∃ ev ∈ run_test_flow_stream env flow,
          ev = Event.node_start nid node.node_type node.label
            ∨ ev = Event.node_skipped nid node.node_type node.label "branch_not_taken")
      ∧ (∃ s fv, (run_test_flow_stream env flow).getLast? = some (Event.done s fv)) := by
  refine ⟨?_, ?_, ?_, ?_⟩
  · intro hunk vars results skipped calls
    simp only [isKnownType, Bool.or_eq_false_iff] at hunk
    obtain ⟨⟨⟨⟨⟨⟨⟨⟨⟨h1, h2⟩, h3⟩, h4⟩, h5⟩, h6⟩, h7⟩, h8⟩, h9⟩, h10⟩ := hunk
    simp [dispatchMain, h1, h2, h3, h4, h5, h6, h7, h8, h9, h10]
  · intro vars results skipped calls e hhttp hexec
    simp [dispatchMain, hhttp, hexec]
  · obtain ⟨pre, post, horder⟩ := List.append_of_mem hmem
    have hout : run_test_flow_stream env flow =
        [Event.start ((order.filter (fun nid =>
          match flow.nodes.find? (fun n => n.id == nid) with
          | some n => n.node_type != "group"
          | none => false)).length) flow.name]
          ++ (order.foldl (runNode env flow.nodes flow.edges)
              { vars := flow.variables_, results := [], skipped := [],
                exec_index := 0, calls := 0, events := [] }).events
          ++ [Event.done (build_summary (order.foldl (runNode env flow.nodes flow.edges)
              { vars := flow.variables_, results := [], skipped := [],
                exec_index := 0, calls := 0, events := [] }).results)
              (order.foldl (runNode env flow.nodes flow.edges)
              { vars := flow.variables_, results := [], skipped := [],
                exec_index := 0, calls := 0, events := [] }).vars] := by
      simp only [run_test_flow_stream]
      rw [hord]
    set st0 : RunState := {
      vars := flow.variables_, results := [], skipped := [],
      exec_index := 0, calls := 0, events := [] } with hst0
    have hsplit : order.foldl (runNode env flow.nodes flow.edges) st0
        = post.foldl (runNode env flow.nodes flow.edges)
            (runNode env flow.nodes flow.edges
              (pre.foldl (runNode env flow.nodes flow.edges) st0) nid) := by
      rw [horder, List.foldl_append, List.foldl_cons]
    have hemit := runNode_emits env flow.nodes flow.edges
      (pre.foldl (runNode env flow.nodes flow.edges) st0) nid node hfind hng
    obtain ⟨ts, hts⟩ := runFold_events_mono env flow.nodes flow.edges post
      (runNode env flow.nodes flow.edges (pre.foldl (runNode env flow.nodes flow.edges) st0) nid)
    rcases hemit with hev | hev
    · refine ⟨Event.node_start nid node.node_type node.label, ?_, Or.inl rfl⟩
      rw [hout]
      rw [List.mem_append, List.mem_append]
      left; right
      rw [hsplit, hts, List.mem_append]
      exact Or.inl hev
    · refine ⟨Event.node_skipped nid node.node_type node.label "branch_not_taken", ?_, Or.inr rfl⟩
      rw [hout]
      rw [List.mem_append, List.mem_append]
      left; right
      rw [hsplit, hts, List.mem_append]
      exact Or.inl hev
  · simp only [run_test_flow_stream]
    rw [hord]
    exact ⟨_, _, List.getLast?_concat _⟩

/-- C5 witness input: a single node of the unrecognised type
`"frobnicate"`. -/
def c5U : TestFlowNode := { id := "U5", node_type := "frobnicate" }

def c5Flow : TestFlow := { name := "unknown", nodes := [c5U], edges := [] }

/-- C5 witness: the theorem applied to a flow with one unknown-type node. -/
theorem unknown_node_error_run_continues_witness :
    (isKnownType c5U.node_type = false →
      ∀ vars results skipped calls,
        (dispatchMain trivEnv c5Flow.nodes c5Flow.edges c5U vars results skipped calls).result.status
            = "error"
          ∧ (dispatchMain trivEnv c5Flow.nodes c5Flow.edges c5U vars results skipped calls).result.error
            = some ("Unknown node type: " ++ c5U.node_type))
      ∧ (∀ vars results skipped calls e,
          (c5U.node_type == "http_request") = true →
          trivEnv.exec calls c5U.node_type c5U.config vars = Except.error e →
          (dispatchMain trivEnv c5Flow.nodes c5Flow.edges c5U vars results skipped calls).result
            = { status := "error", error := some e })
      ∧ (∃ ev ∈ run_test_flow_stream trivEnv c5Flow,
          ev = Event.node_start "U5" c5U.node_type c5U.label
            ∨ ev = Event.node_skipped "U5" c5U.node_type c5U.label "branch_not_taken")
      ∧ (∃ s fv, (run_test_flow_stream trivEnv c5Flow).getLast? = some (Event.done s fv)) :=
  unknown_node_error_run_continues trivEnv c5Flow ["U5"] "U5" c5U rfl (by decide) rfl
    (by decide)

end TestFlowRunner

namespace TestFlowRunner

/-! ## C3: branch skipping is inactive-reach minus active-reach -/

/-- The spec's notion of forward reachability from a start set (zero or
more edges); compared against the code's BFS below. -/
inductive ReachesFrom (edges : List TestFlowEdge) (starts : List String) : String → Prop where
  | start (v : String) (hv : v ∈ starts) : ReachesFrom edges starts v
  | step (u v : String) (hu : ReachesFrom edges starts u) (he : edgeRel edges u v) :
      ReachesFrom edges starts v

/-- The not-taken handle: `"source-false"` when the branch taken is
`"true"`, else `"source-true"`. -/
def inactiveHandle (branch_taken : String) : String :=
  if branch_taken == "true" then "source-false" else "source-true"

/-- Targets of the condition node's out-edges on the not-taken handle. -/
def inactiveStarts (condition_node_id branch_taken : String)
    (edges : List TestFlowEdge) : List String :=
  ((buildOutgoing edges condition_node_id).filter
    (fun e => e.source_handle == some (inactiveHandle branch_taken))).map (·.target_node_id)

/-- Targets of the condition node's remaining out-edges. -/
def activeStarts (condition_node_id branch_taken : String)
    (edges : List TestFlowEdge) : List String :=
  ((buildOutgoing edges condition_node_id).filter
    (fun e => !(e.source_handle == some (inactiveHandle branch_taken)))).map (·.target_node_id)

theorem mark_inactive_branch_def (condition_node_id branch_taken : String)
    (edges : List TestFlowEdge) (skipped : List String) :
    mark_inactive_branch condition_node_id branch_taken edges skipped
      = (bfsReach edges (inactiveStarts condition_node_id branch_taken edges)).foldl
          (fun acc nid =>
            if (bfsReach edges (activeStarts condition_node_id branch_taken edges)).contains nid
                || acc.contains nid then acc else acc ++ [nid]) skipped := rfl

/-- BFS never removes visited nodes. -/
theorem bfsLoop_subset (out : String → List TestFlowEdge) (blocked : String → Bool) :
    ∀ fuel q vis, ∀ x ∈ vis, x ∈ bfsLoop out blocked fuel q vis := by
  intro fuel
  induction fuel with
  | zero => intro q vis x hx; exact hx
  | succ fuel ih =>
    intro q vis x hx
    match q with
    | [] => exact hx
    | nid :: rest =>
      simp only [bfsLoop]
      by_cases hv : (vis.contains nid || blocked nid) = true
      · rw [if_pos hv]
        exact ih _ _ x hx
      · rw [if_neg hv]
        exact ih _ _ x (List.mem_append_left _ hx)

/-- BFS only visits nodes satisfying any predicate that holds on the queue,
holds on the visited list, and is preserved along out-edges. -/
theorem bfsLoop_sound (out : String → List TestFlowEdge) (blocked : String → Bool)
    (P : String → Prop) (hstep : ∀ u, P u → ∀ e ∈ out u, P e.target_node_id) :
    ∀ fuel q vis, (∀ x ∈ q, P x) → (∀ x ∈ vis, P x) →
      ∀ v ∈ bfsLoop out blocked fuel q vis, P v := by
  intro fuel
  induction fuel with
  | zero => intro q vis hq hvis v hv; exact hvis v hv
  | succ fuel ih =>
    intro q vis hq hvis v hv
    match q with
    | [] => exact hvis v hv
    | nid :: rest =>
      simp only [bfsLoop] at hv
      by_cases hc : (vis.contains nid || blocked nid) = true
      · rw [if_pos hc] at hv
        exact ih rest vis (fun x hx => hq x (List.mem_cons_of_mem _ hx)) hvis v hv
      · rw [if_neg hc] at hv
        refine ih _ _ ?_ ?_ v hv
        · intro x hx
          rcases List.mem_append.mp hx with hx | hx
          · exact hq x (List.mem_cons_of_mem _ hx)
          · rw [List.mem_map] at hx
            obtain ⟨e, he, ht⟩ := hx
            rw [← ht]
            exact hstep nid (hq nid (List.mem_cons_self _ _)) e he
        · intro x hx
          rcases List.mem_append.mp hx with hx | hx
          · exact hvis x hx
          · simp only [List.mem_singleton] at hx
            subst hx
            exact hq x (List.mem_cons_self _ _)

theorem buildOutgoing_length (edges : List TestFlowEdge) (nid : String) :
    (buildOutgoing edges nid).length = edges.countP (fun e => e.source_node_id == nid) := by
  unfold buildOutgoing
  rw [List.countP_eq_length_filter]

/-- Visiting a fresh node converts its pending out-edge budget into queue
budget one for one. -/
theorem countP_snoc_vis (edges : List TestFlowEdge) (vis : List String) (nid : String)
    (hnid : nid ∉ vis) :
    edges.countP (fun e => !((vis ++ [nid]).contains e.source_node_id))
        + edges.countP (fun e => e.source_node_id == nid)
      = edges.countP (fun e => !(vis.contains e.source_node_id)) := by
  induction edges with
  | nil => simp
  | cons e es ih =>
    rw [List.countP_cons, List.countP_cons, List.countP_cons]
    by_cases h1 : e.source_node_id = nid
    · have e1 : (if (!((vis ++ [nid]).contains e.source_node_id)) = true then 1 else 0) = 0 := by
        simp [List.elem_eq_mem, h1]
      have e2 : (if (e.source_node_id == nid) = true then 1 else 0) = 1 := by simp [h1]
      have e3 : (if (!(vis.contains e.source_node_id)) = true then 1 else 0) = 1 := by
        simp [List.elem_eq_mem, h1, hnid]
      rw [e1, e2, e3]
      omega
    · have e2 : (if (e.source_node_id == nid) = true then 1 else 0) = 0 := by simp [h1]
      have ecc : (if (!((vis ++ [nid]).contains e.source_node_id)) = true then 1 else 0)
          = (if (!(vis.contains e.source_node_id)) = true then 1 else 0) := by
        simp [List.elem_eq_mem, h1]
      rw [e2, ecc]
      omega

/-- With enough fuel the BFS drains its queue: the visited result covers the
queued starts and is closed under out-edges. -/
theorem bfsLoop_post (edges : List TestFlowEdge) (starts : List String) :
    ∀ fuel q vis,
      edges.countP (fun e => !(vis.contains e.source_node_id)) + q.length ≤ fuel →
      (∀ v ∈ starts, v ∈ vis ∨ v ∈ q) →
      (∀ u ∈ vis, ∀ e ∈ edges, e.source_node_id = u →
        e.target_node_id ∈ vis ∨ e.target_node_id ∈ q) →
      (∀ v ∈ starts, v ∈ bfsLoop (buildOutgoing edges) (fun _ => false) fuel q vis)
        ∧ (∀ u ∈ bfsLoop (buildOutgoing edges) (fun _ => false) fuel q vis,
            ∀ e ∈ edges, e.source_node_id = u →
              e.target_node_id ∈ bfsLoop (buildOutgoing edges) (fun _ => false) fuel q vis) := by
  intro fuel
  induction fuel with
  | zero =>
    intro q vis hfuel hstarts hclosed
    have hq : q = [] := by
      have : q.length = 0 := by omega
      exact List.length_eq_zero.mp this
    subst hq
    constructor
    · intro v hv
      rcases hstarts v hv with h | h
      · exact h
      · simp at h
    · intro u hu e he hs
      rcases hclosed u hu e he hs with h | h
      · exact h
      · simp at h
  | succ fuel ih =>
    intro q vis hfuel hstarts hclosed
    match q with
    | [] =>
      constructor
      · intro v hv
        rcases hstarts v hv with h | h
        · exact h
        · simp at h
      · intro u hu e he hs
        rcases hclosed u hu e he hs with h | h
        · exact h
        · simp at h
    | nid :: rest =>
      simp only [bfsLoop, Bool.or_false]
      by_cases hc : (vis.contains nid) = true
      · rw [if_pos hc]
        refine ih rest vis ?_ ?_ ?_
        · simp only [List.length_cons] at hfuel
          omega
        · intro v hv
          rcases hstarts v hv with h | h
          · exact Or.inl h
          · rcases List.mem_cons.mp h with rfl | h
            · exact Or.inl (by simpa [List.elem_eq_mem] using hc)
            · exact Or.inr h
        · intro u hu e he hs
          rcases hclosed u hu e he hs with h | h
          · exact Or.inl h
          · rcases List.mem_cons.mp h with heq | h
            · rw [heq]
              exact Or.inl (by simpa [List.elem_eq_mem] using hc)
            · exact Or.inr h
      · rw [if_neg hc]
        have hnid : nid ∉ vis := by
          intro habs
          exact hc (by simp [List.elem_eq_mem, habs])
        refine ih _ _ ?_ ?_ ?_
        · have harith := countP_snoc_vis edges vis nid hnid
          have hlen := buildOutgoing_length edges nid
          simp only [List.length_append, List.length_map, List.length_cons] at hfuel ⊢
          omega
        · intro v hv
          rcases hstarts v hv with h | h
          · exact Or.inl (List.mem_append_left _ h)
          · rcases List.mem_cons.mp h with rfl | h
            · exact Or.inl (List.mem_append_right _ (List.mem_singleton.mpr rfl))
            · exact Or.inr (List.mem_append_left _ h)
        · intro u hu e he hs
          rcases List.mem_append.mp hu with hu | hu
          · rcases hclosed u hu e he hs with h | h
            · exact Or.inl (List.mem_append_left _ h)
            · rcases List.mem_cons.mp h with heq | h
              · rw [heq]
                exact Or.inl (List.mem_append_right _ (List.mem_singleton.mpr rfl))
              · exact Or.inr (List.mem_append_left _ h)
          · simp only [List.mem_singleton] at hu
            subst hu
            refine Or.inr (List.mem_append_right _ ?_)
            rw [List.mem_map]
            refine ⟨e, ?_, rfl⟩
            unfold buildOutgoing
            rw [List.mem_filter]
            exact ⟨he, by simp [hs]⟩

/-- The code's BFS computes exactly the spec's forward reachability. -/
theorem bfsReach_iff (edges : List TestFlowEdge) (starts : List String) (v : String) :
    v ∈ bfsReach edges starts ↔ ReachesFrom edges starts v := by
  constructor
  · intro hv
    refine bfsLoop_sound (buildOutgoing edges) (fun _ => false) (ReachesFrom edges starts)
      ?_ _ starts [] (fun x hx => ReachesFrom.start x hx) ?_ v hv
    · intro u hu e he
      have hef := List.mem_filter.mp he
      refine ReachesFrom.step u _ hu ⟨e, hef.1, ?_, rfl⟩
      simpa using hef.2
    · intro x hx
      simp at hx
  · intro hr
    have hpot : edges.countP (fun e => !(([] : List String).contains e.source_node_id))
        + starts.length ≤ starts.length + edges.length := by
      have := List.countP_le_length
        (fun e => !(([] : List String).contains e.source_node_id)) (l := edges)
      omega
    obtain ⟨hstarts, hclosed⟩ := bfsLoop_post edges starts (starts.length + edges.length)
      starts [] hpot (fun v hv => Or.inr hv) (fun u hu => by simp at hu)
    unfold bfsReach
    induction hr with
    | start w hw => exact hstarts w hw
    | step u w hu he ihu =>
      obtain ⟨e, he', hs, ht⟩ := he
      rw [← ht]
      exact hclosed u ihu e he' hs

/-- Membership after the `inactive − active` fold: previous entries stay,
and an id is added iff it is inactive-reachable but not active-reachable. -/
theorem foldl_skip_mem (active : List String) :
    ∀ (l acc : List String) (v : String),
      v ∈ l.foldl (fun acc nid =>
          if active.contains nid || acc.contains nid then acc else acc ++ [nid]) acc
        ↔ v ∈ acc ∨ (v ∈ l ∧ active.contains v = false) := by
  intro l
  induction l with
  | nil => intro acc v; simp
  | cons x xs ih =>
    intro acc v
    rw [List.foldl_cons]
    by_cases hc : (active.contains x || acc.contains x) = true
    · rw [if_pos hc, ih]
      simp only [List.mem_cons]
      constructor
      · rintro (h | ⟨h, hact⟩)
        · exact Or.inl h
        · exact Or.inr ⟨Or.inr h, hact⟩
      · rintro (h | ⟨hx | h, hact⟩)
        · exact Or.inl h
        · subst hx
          have hc2 : active.contains v = true ∨ acc.contains v = true := by
            simpa using hc
          rcases hc2 with h' | h'
          · rw [hact] at h'
            exact absurd h' (by simp)
          · exact Or.inl (by simpa [List.elem_eq_mem] using h')
        · exact Or.inr ⟨h, hact⟩
    · rw [if_neg hc, ih]
      simp only [Bool.or_eq_true, not_or, Bool.not_eq_true] at hc
      simp only [List.mem_append, List.mem_singleton, List.mem_cons, List.not_mem_nil,
        or_false]
      constructor
      · rintro ((h | rfl) | ⟨h, hact⟩)
        · exact Or.inl h
        · exact Or.inr ⟨Or.inl rfl, hc.1⟩
        · exact Or.inr ⟨Or.inr h, hact⟩
      · rintro (h | ⟨hx | h, hact⟩)
        · exact Or.inl (Or.inl h)
        · exact Or.inl (Or.inr hx)
        · exact Or.inr ⟨h, hact⟩

end TestFlowRunner

namespace TestFlowRunner

/-- The diamond flow: condition `C3C` fans out to `B1` (handle
`source-true`) and `B2` (handle `source-false`), both reconverging at
`D3`. -/
def d3C : TestFlowNode :=
  { id := "C3C", node_type := "condition", config := { expression := "true" } }

def d3B1 : TestFlowNode := { id := "B1", node_type := "delay" }

def d3B2 : TestFlowNode := { id := "B2", node_type := "delay" }

def d3D : TestFlowNode := { id := "D3", node_type := "delay" }

def d3E1 : TestFlowEdge :=
  { id := "d1", source_node_id := "C3C", target_node_id := "B1",
    source_handle := some "source-true" }

def d3E2 : TestFlowEdge :=
  { id := "d2", source_node_id := "C3C", target_node_id := "B2",
    source_handle := some "source-false" }

def d3E3 : TestFlowEdge :=
  { id := "d3", source_node_id := "B1", target_node_id := "D3" }

def d3E4 : TestFlowEdge :=
  { id := "d4", source_node_id := "B2", target_node_id := "D3" }

def diamondFlow : TestFlow :=
  { name := "diamond", nodes := [d3C, d3B1, d3B2, d3D],
    edges := [d3E1, d3E2, d3E3, d3E4] }

/-- Does the event start the given node? -/
def startEventFor (nid : String) : Event → Bool
  | Event.node_start i _ _ => i == nid
  | _ => false

/-- Does the event skip the given node? -/
def skipEventFor (nid : String) : Event → Bool
  | Event.node_skipped i _ _ _ => i == nid
  | _ => false

/-- C3: (general part) an id is in the skip set produced by
`_mark_inactive_branch` iff it was already skipped or is forward-reachable
from the not-taken handle's targets but not from the taken side's targets —
the set difference the spec requires for rejoining branches; (diamond part)
in the concrete diamond under branch `"true"`, the rejoin node `D3` gets a
`node_start` and no `node_skipped`, while the false-only node `B2` gets a
`node_skipped` and is never dispatched. -/
theorem mark_inactive_branch_spec :
    (∀ condition_node_id branch_taken edges skipped v,
      v ∈ mark_inactive_branch condition_node_id branch_taken edges skipped
        ↔ v ∈ skipped
          ∨ (ReachesFrom edges (inactiveStarts condition_node_id branch_taken edges) v
              ∧ ¬ ReachesFrom edges (activeStarts condition_node_id branch_taken edges) v))
      ∧ ((run_test_flow_stream trivEnv diamondFlow).any (startEventFor "D3") = true
        ∧ (run_test_flow_stream trivEnv diamondFlow).any (skipEventFor "D3") = false
        ∧ (run_test_flow_stream trivEnv diamondFlow).any (skipEventFor "B2") = true
        ∧ (run_test_flow_stream trivEnv diamondFlow).any (startEventFor "B2") = false) := by
  constructor
  · intro cid bt edges skipped v
    rw [mark_inactive_branch_def, foldl_skip_mem]
    constructor
    · rintro (h | ⟨h, hact⟩)
      · exact Or.inl h
      · refine Or.inr ⟨(bfsReach_iff _ _ _).mp h, ?_⟩
        intro hr
        have hmem := (bfsReach_iff _ _ _).mpr hr
        simp [List.elem_eq_mem, hmem] at hact
    · rintro (h | ⟨hin, hnact⟩)
      · exact Or.inl h
      · refine Or.inr ⟨(bfsReach_iff _ _ _).mpr hin, ?_⟩
        have hno : v ∉ bfsReach edges (activeStarts cid bt edges) :=
          fun habs => hnact ((bfsReach_iff _ _ _).mp habs)
        simp [List.elem_eq_mem, hno]
  · exact ⟨by decide, by decide, by decide, by decide⟩

end TestFlowRunner

namespace TestFlowRunner

/-! ## C10: loop-body nodes are skipped by the main pass -/

/-- Membership after the set-insertion fold (`skipped_nodes.add`). -/
theorem foldl_dedupe_mem (l : List String) :
    ∀ (acc : List String) (v : String),
      v ∈ l.foldl (fun acc x => if acc.contains x then acc else acc ++ [x]) acc
        ↔ v ∈ acc ∨ v ∈ l := by
  induction l with
  | nil => intro acc v; simp
  | cons x xs ih =>
    intro acc v
    rw [List.foldl_cons]
    by_cases hc : (acc.contains x) = true
    · rw [if_pos hc, ih]
      simp only [List.mem_cons]
      constructor
      · rintro (h | h)
        · exact Or.inl h
        · exact Or.inr (Or.inr h)
      · rintro (h | hx | h)
        · exact Or.inl h
        · subst hx
          exact Or.inl (by simpa [List.elem_eq_mem] using hc)
        · exact Or.inr h
    · rw [if_neg hc, ih]
      simp only [List.mem_append, List.mem_singleton, List.mem_cons, List.not_mem_nil,
        or_false]
      constructor
      · rintro ((h | rfl) | h)
        · exact Or.inl h
        · exact Or.inr (Or.inl rfl)
        · exact Or.inr (Or.inr h)
      · rintro (h | hx | h)
        · exact Or.inl (Or.inl h)
        · exact Or.inl (Or.inr hx)
        · exact Or.inr h

/-- The iteration loop never drops entries from the outer skip set. -/
theorem loopIterate_skipped_mono (env : Env) (edges : List TestFlowEdge)
    (nodes : List TestFlowNode) (nid : String) (bset border lbn : List String)
    (mode cond : String) (iters : Int) :
    ∀ (is : List Int) (st : IterSt) (v : String), v ∈ st.skipped →
      v ∈ (loopIterate env edges nodes nid bset border lbn mode cond iters is st).skipped := by
  intro is
  induction is with
  | nil => intro st v hv; simpa [loopIterate] using hv
  | cons i rest ih =>
    intro st v hv
    have hv2 : v ∈ lbn.foldl (fun acc x => if acc.contains x then acc else acc ++ [x])
        st.skipped := (foldl_dedupe_mem lbn st.skipped v).mpr (Or.inl hv)
    simp only [loopIterate]
    split
    · split
      all_goals first
        | exact ih _ v hv2
        | exact hv2
    · exact ih _ v hv2

/-- After any completed iteration every body node is in the outer skip
set. -/
theorem loopIterate_skips_body (env : Env) (edges : List TestFlowEdge)
    (nodes : List TestFlowNode) (nid : String) (bset border lbn : List String)
    (mode cond : String) (iters : Int) (i : Int) (rest : List Int) (st : IterSt)
    (v : String) (hv : v ∈ lbn) :
    v ∈ (loopIterate env edges nodes nid bset border lbn mode cond iters (i :: rest) st).skipped := by
  have hv2 : v ∈ lbn.foldl (fun acc x => if acc.contains x then acc else acc ++ [x])
      st.skipped := (foldl_dedupe_mem lbn st.skipped v).mpr (Or.inr hv)
  simp only [loopIterate]
  split
  · split
    all_goals first
      | exact loopIterate_skipped_mono env edges nodes nid bset border lbn mode cond iters
          rest _ v hv2
      | exact hv2
  · exact loopIterate_skipped_mono env edges nodes nid bset border lbn mode cond iters
      rest _ v hv2

/-- Field changes of the per-assertion accumulation inside
`_build_summary`. -/
theorem assertFold_fields (ars : List AssertionResult) :
    ∀ acc : Summary,
      (ars.foldl (fun a ar =>
        if ar.passed then
          { a with total_assertions := a.total_assertions + 1,
                   passed_assertions := a.passed_assertions + 1 }
        else
          { a with total_assertions := a.total_assertions + 1,
                   failed_assertions := a.failed_assertions + 1 }) acc)
      = { acc with
          total_assertions := acc.total_assertions + ars.length,
          passed_assertions := acc.passed_assertions + ars.countP (·.passed),
          failed_assertions := acc.failed_assertions + ars.countP (fun ar => !ar.passed) } := by
  induction ars with
  | nil => intro acc; simp
  | cons ar rest ih =>
    intro acc
    rw [List.foldl_cons]
    by_cases hp : ar.passed = true
    · rw [if_pos hp, ih]
      simp [hp] <;> omega
    · rw [if_neg hp, ih]
      have hp' : ar.passed = false := by simpa using hp
      simp [hp'] <;> omega

end TestFlowRunner

namespace TestFlowRunner

/-- Field changes of one `_build_summary` step. -/
theorem summaryStep_fields (acc : Summary) (r : NodeResult) :
    (summaryStep acc r).skipped_count
        = acc.skipped_count + (if r.status == "skipped" then 1 else 0)
    ∧ (summaryStep acc r).total_nodes = acc.total_nodes + 1
    ∧ (summaryStep acc r).passed_count
        = acc.passed_count + (if r.status == "success" then 1 else 0)
    ∧ (summaryStep acc r).failed_count
        = acc.failed_count + (if r.status == "error" then 1 else 0)
    ∧ (summaryStep acc r).total_time_ms
        = acc.total_time_ms + (if r.status == "skipped" then 0 else r.elapsed_ms.getD 0)
    ∧ (summaryStep acc r).total_assertions
        = acc.total_assertions
          + (if r.status == "skipped" then 0 else r.assertion_results.length)
    ∧ (summaryStep acc r).passed_assertions
        = acc.passed_assertions
          + (if r.status == "skipped" then 0 else r.assertion_results.countP (·.passed)) := by
  unfold summaryStep
  by_cases hs : (r.status == "skipped") = true
  · have h : r.status = "skipped" := eq_of_beq hs
    rw [if_pos hs]
    simp [h]
  · rw [if_neg hs]
    have hsf : (r.status == "skipped") = false := by simpa using hs
    simp only [assertFold_fields]
    by_cases hsu : (r.status == "success") = true
    · have hse : (r.status == "error") = false := by
        have h : r.status = "success" := eq_of_beq hsu
        rw [h]
        decide
      simp [hsf, hsu, hse]
    · have hsu' : (r.status == "success") = false := by simpa using hsu
      by_cases herr : (r.status == "error") = true
      · simp [hsf, hsu', herr]
      · have herr' : (r.status == "error") = false := by simpa using herr
        simp [hsf, hsu', herr']

/-- Field totals of the `_build_summary` fold: skipped entries count once in
`skipped_count` and `total_nodes` and contribute nothing else. -/
theorem summaryFold_fields (rs : List (String × NodeResult)) :
    ∀ acc : Summary,
      ((rs.foldl (fun acc p => summaryStep acc p.2) acc).skipped_count
          = acc.skipped_count + rs.countP (fun p => p.2.status == "skipped"))
      ∧ ((rs.foldl (fun acc p => summaryStep acc p.2) acc).total_nodes
          = acc.total_nodes + rs.length)
      ∧ ((rs.foldl (fun acc p => summaryStep acc p.2) acc).passed_count
          = acc.passed_count + rs.countP (fun p => p.2.status == "success"))
      ∧ ((rs.foldl (fun acc p => summaryStep acc p.2) acc).failed_count
          = acc.failed_count + rs.countP (fun p => p.2.status == "error"))
      ∧ ((rs.foldl (fun acc p => summaryStep acc p.2) acc).total_time_ms
          = acc.total_time_ms + ((rs.filter (fun p => !(p.2.status == "skipped"))).map
              (fun p => p.2.elapsed_ms.getD 0)).sum)
      ∧ ((rs.foldl (fun acc p => summaryStep acc p.2) acc).total_assertions
          = acc.total_assertions + ((rs.filter (fun p => !(p.2.status == "skipped"))).map
              (fun p => p.2.assertion_results.length)).sum)
      ∧ ((rs.foldl (fun acc p => summaryStep acc p.2) acc).passed_assertions
          = acc.passed_assertions + ((rs.filter (fun p => !(p.2.status == "skipped"))).map
              (fun p => p.2.assertion_results.countP (·.passed))).sum) := by
  induction rs with
  | nil => intro acc; simp
  | cons p rest ih =>
    intro acc
    obtain ⟨s1, s2, s3, s4, s5, s6, s7⟩ := ih (summaryStep acc p.2)
    obtain ⟨t1, t2, t3, t4, t5, t6, t7⟩ := summaryStep_fields acc p.2
    rw [List.foldl_cons]
    refine ⟨?_, ?_, ?_, ?_, ?_, ?_, ?_⟩
    · rw [s1, t1, List.countP_cons]
      omega
    · rw [s2, t2, List.length_cons]
      omega
    · rw [s3, t3, List.countP_cons]
      omega
    · rw [s4, t4, List.countP_cons]
      omega
    · rw [s5, t5]
      by_cases hsk : (p.2.status == "skipped") = true
      · simp [hsk]
      · have hsk' : (p.2.status == "skipped") = false := by simpa using hsk
        simp [hsk', add_assoc]
    · rw [s6, t6]
      by_cases hsk : (p.2.status == "skipped") = true
      · simp [hsk]
      · have hsk' : (p.2.status == "skipped") = false := by simpa using hsk
        simp [hsk', add_assoc]
    · rw [s7, t7]
      by_cases hsk : (p.2.status == "skipped") = true
      · simp [hsk]
      · have hsk' : (p.2.status == "skipped") = false := by simpa using hsk
        simp [hsk', add_assoc]

end TestFlowRunner

namespace TestFlowRunner

/-- C10: a loop that completes at least one iteration adds every node of
its body subgraph to the outer skip set; when the main loop later reaches a
marked node it only emits `node_skipped` with reason `"branch_not_taken"`
and replaces its result entry by `{status := "skipped"}`; and the summary
counts a skipped entry once in `skipped_count`, never in
`passed_count`/`failed_count`, and without its elapsed time or assertion
results entering the totals. -/
theorem loop_body_skipped_spec (env : Env) (node : TestFlowNode) (config : NodeConfig)
    (vars : List (String × String)) (results : List (String × NodeResult))
    (edges : List TestFlowEdge) (nodes : List TestFlowNode)
    (skipped : List String) (calls : Nat)
    (hiter : 0 < (if config.mode == "count" then min config.count config.max_iterations
      else config.max_iterations)) :
    (∀ v ∈ loopBodyNodes edges nodes node,
      v ∈ (exec_loop env node config vars results edges nodes skipped calls).skipped)
      ∧ (∀ (st : RunState) (nid : String) (bnode : TestFlowNode),
          nodes.find? (fun n => n.id == nid) = some bnode →
          (bnode.node_type != "group") = true →
          st.skipped.contains nid = true →
          runNode env nodes edges st nid = { st with
            events := st.events
              ++ [Event.node_skipped nid bnode.node_type bnode.label "branch_not_taken"],
            results := amUpdate st.results nid { status := "skipped" },
            exec_index := st.exec_index + 1 })
      ∧ (∀ rs : List (String × NodeResult),
          (build_summary rs).skipped_count = rs.countP (fun p => p.2.status == "skipped")
          ∧ (build_summary rs).passed_count = rs.countP (fun p => p.2.status == "success")
          ∧ (build_summary rs).failed_count = rs.countP (fun p => p.2.status == "error")
          ∧ (build_summary rs).total_time_ms = pyRound2 (((rs.filter
              (fun p => !(p.2.status == "skipped"))).map
                (fun p => p.2.elapsed_ms.getD 0)).sum)
          ∧ (build_summary rs).total_assertions = ((rs.filter
              (fun p => !(p.2.status == "skipped"))).map
                (fun p => p.2.assertion_results.length)).sum) := by
  refine ⟨?_, ?_, ?_⟩
  · intro v hv
    have key : (exec_loop env node config vars results edges nodes skipped calls).skipped
        = (loopIterate env edges nodes node.id (loopBodyNodes edges nodes node)
            (loopBodyOrder edges (loopBodyNodes edges nodes node))
            (loopBodyNodes edges nodes node) config.mode config.condition
            (if config.mode == "count" then min config.count config.max_iterations
              else config.max_iterations)
            ((List.range (if config.mode == "count"
                then min config.count config.max_iterations
                else config.max_iterations).toNat).map (fun k : Nat => ((k : Int) + 1)))
            { completed := 0, vars := vars, results := results, skipped := skipped,
              calls := calls, sub_events := [] }).skipped := rfl
    rw [key]
    set its : Int := (if config.mode == "count" then min config.count config.max_iterations
      else config.max_iterations) with hits
    obtain ⟨m, hm⟩ : ∃ m, its.toNat = m + 1 := ⟨its.toNat - 1, by omega⟩
    rw [hm, List.range_succ_eq_map, List.map_cons]
    exact loopIterate_skips_body env edges nodes node.id _ _ _ config.mode config.condition
      _ _ _ _ v hv
  · intro st nid bnode hfind hng hskip
    unfold runNode
    rw [hfind]
    dsimp only
    have hg : (bnode.node_type == "group") = false := by
      simp only [bne_iff_ne, ne_eq] at hng
      simp [hng]
    simp only [hg, Bool.false_eq_true, if_false]
    rw [if_pos hskip]
  · intro rs
    obtain ⟨f1, f2, f3, f4, f5, f6, f7⟩ := summaryFold_fields rs {}
    refine ⟨?_, ?_, ?_, ?_, ?_⟩
    · simpa using f1
    · simpa using f3
    · simpa using f4
    · show pyRound2 (rs.foldl (fun acc p => summaryStep acc p.2) {}).total_time_ms = _
      rw [f5]
      simp
    · simpa using f6

/-- C10 witness input: a `count=1` loop over one `delay` body node. -/
def c10Cfg : NodeConfig := { mode := "count", count := 1 }

def c10Loop : TestFlowNode := { id := "L10", node_type := "loop", config := c10Cfg }

def c10Body : TestFlowNode := { id := "BD", node_type := "delay" }

def c10Edge : TestFlowEdge :=
  { id := "le1", source_node_id := "L10", target_node_id := "BD",
    source_handle := some "source-loop" }

/-- C10 witness: the theorem applied to the one-iteration loop. -/
theorem loop_body_skipped_spec_witness :
    (∀ v ∈ loopBodyNodes [c10Edge] [c10Loop, c10Body] c10Loop,
      v ∈ (exec_loop trivEnv c10Loop c10Cfg [] [] [c10Edge] [c10Loop, c10Body] [] 0).skipped)
      ∧ (∀ (st : RunState) (nid : String) (bnode : TestFlowNode),
          ([c10Loop, c10Body].find? (fun n => n.id == nid)) = some bnode →
          (bnode.node_type != "group") = true →
          st.skipped.contains nid = true →
          runNode trivEnv [c10Loop, c10Body] [c10Edge] st nid = { st with
            events := st.events
              ++ [Event.node_skipped nid bnode.node_type bnode.label "branch_not_taken"],
            results := amUpdate st.results nid { status := "skipped" },
            exec_index := st.exec_index + 1 })
      ∧ (∀ rs : List (String × NodeResult),
          (build_summary rs).skipped_count = rs.countP (fun p => p.2.status == "skipped")
          ∧ (build_summary rs).passed_count = rs.countP (fun p => p.2.status == "success")
          ∧ (build_summary rs).failed_count = rs.countP (fun p => p.2.status == "error")
          ∧ (build_summary rs).total_time_ms = pyRound2 (((rs.filter
              (fun p => !(p.2.status == "skipped"))).map
                (fun p => p.2.elapsed_ms.getD 0)).sum)
          ∧ (build_summary rs).total_assertions = ((rs.filter
              (fun p => !(p.2.status == "skipped"))).map
                (fun p => p.2.assertion_results.length)).sum) :=
  loop_body_skipped_spec trivEnv c10Loop c10Cfg [] [] [c10Edge] [c10Loop, c10Body] [] 0
    (by decide)

end TestFlowRunner
